import Mathlib

/-!
# The Landlock sandboxer (`sandboxer.c`)

A shallow embedding of `sandboxer.c`: the launcher reads four environment
variables, builds a Landlock ruleset from them, enforces it on itself and then
executes a command.

* C strings are lists of characters (the bytes before the terminating NUL).
* Every system call the program makes is appended to a trace of `Event`s, in
  program order.  The answers of the kernel are given by a `World`: every
  answer may depend on the whole trace of calls made before it.
* Every `fprintf(stderr, ...)` and `perror` is an `Event.stderr` carrying a
  `Msg` that holds the arguments of the format string.
* `__u64` values are natural numbers below `2 ^ 64`.
* The calls of `malloc`, `strdup` and `free` are not events.  A call of `free`
  with a pointer that no allocation returned, and the use of a `NULL` string,
  are undefined behaviour: the run ends with the outcome `fault`.
-/

namespace Sandboxer

/-- A C string: the characters before the terminating NUL. -/
abbrev CStr := List Char

/-! ## Constants of `linux/landlock.h` and of the source -/

/-- The `LANDLOCK_ACCESS_FS_EXECUTE` bit, `1ULL << 0` in `linux/landlock.h`. -/
def LANDLOCK_ACCESS_FS_EXECUTE : Nat := 2 ^ 0

/-- The `LANDLOCK_ACCESS_FS_WRITE_FILE` bit, `1ULL << 1` in `linux/landlock.h`. -/
def LANDLOCK_ACCESS_FS_WRITE_FILE : Nat := 2 ^ 1

/-- The `LANDLOCK_ACCESS_FS_READ_FILE` bit, `1ULL << 2` in `linux/landlock.h`. -/
def LANDLOCK_ACCESS_FS_READ_FILE : Nat := 2 ^ 2

/-- The `LANDLOCK_ACCESS_FS_READ_DIR` bit, `1ULL << 3` in `linux/landlock.h`. -/
def LANDLOCK_ACCESS_FS_READ_DIR : Nat := 2 ^ 3

/-- The `LANDLOCK_ACCESS_FS_REMOVE_DIR` bit, `1ULL << 4` in `linux/landlock.h`. -/
def LANDLOCK_ACCESS_FS_REMOVE_DIR : Nat := 2 ^ 4

/-- The `LANDLOCK_ACCESS_FS_REMOVE_FILE` bit, `1ULL << 5` in `linux/landlock.h`. -/
def LANDLOCK_ACCESS_FS_REMOVE_FILE : Nat := 2 ^ 5

/-- The `LANDLOCK_ACCESS_FS_MAKE_CHAR` bit, `1ULL << 6` in `linux/landlock.h`. -/
def LANDLOCK_ACCESS_FS_MAKE_CHAR : Nat := 2 ^ 6

/-- The `LANDLOCK_ACCESS_FS_MAKE_DIR` bit, `1ULL << 7` in `linux/landlock.h`. -/
def LANDLOCK_ACCESS_FS_MAKE_DIR : Nat := 2 ^ 7

/-- The `LANDLOCK_ACCESS_FS_MAKE_REG` bit, `1ULL << 8` in `linux/landlock.h`. -/
def LANDLOCK_ACCESS_FS_MAKE_REG : Nat := 2 ^ 8

/-- The `LANDLOCK_ACCESS_FS_MAKE_SOCK` bit, `1ULL << 9` in `linux/landlock.h`. -/
def LANDLOCK_ACCESS_FS_MAKE_SOCK : Nat := 2 ^ 9

/-- The `LANDLOCK_ACCESS_FS_MAKE_FIFO` bit, `1ULL << 10` in `linux/landlock.h`. -/
def LANDLOCK_ACCESS_FS_MAKE_FIFO : Nat := 2 ^ 10

/-- The `LANDLOCK_ACCESS_FS_MAKE_BLOCK` bit, `1ULL << 11` in `linux/landlock.h`. -/
def LANDLOCK_ACCESS_FS_MAKE_BLOCK : Nat := 2 ^ 11

/-- The `LANDLOCK_ACCESS_FS_MAKE_SYM` bit, `1ULL << 12` in `linux/landlock.h`. -/
def LANDLOCK_ACCESS_FS_MAKE_SYM : Nat := 2 ^ 12

/-- The `LANDLOCK_ACCESS_FS_REFER` bit, `1ULL << 13` in `linux/landlock.h`. -/
def LANDLOCK_ACCESS_FS_REFER : Nat := 2 ^ 13

/-- The `LANDLOCK_ACCESS_FS_TRUNCATE` bit, `1ULL << 14` in `linux/landlock.h`. -/
def LANDLOCK_ACCESS_FS_TRUNCATE : Nat := 2 ^ 14

/-- The `LANDLOCK_ACCESS_NET_BIND_TCP` bit, `1ULL << 0` in `linux/landlock.h`. -/
def LANDLOCK_ACCESS_NET_BIND_TCP : Nat := 2 ^ 0

/-- The `LANDLOCK_ACCESS_NET_CONNECT_TCP` bit, `1ULL << 1` in `linux/landlock.h`. -/
def LANDLOCK_ACCESS_NET_CONNECT_TCP : Nat := 2 ^ 1

/-- The value of `ENOSYS` on Linux (`errno.h`). -/
def ENOSYS : Nat := 38

/-- The value of `EOPNOTSUPP` on Linux (`errno.h`). -/
def EOPNOTSUPP : Nat := 95

/-- Line 52. -/
def ENV_FS_RO_NAME : String := "LL_FS_RO"

/-- Line 53. -/
def ENV_FS_RW_NAME : String := "LL_FS_RW"

/-- Line 54. -/
def ENV_TCP_BIND_NAME : String := "LL_TCP_BIND"

/-- Line 55. -/
def ENV_TCP_CONNECT_NAME : String := "LL_TCP_CONNECT"

/-- The first character of the string of line 56, the only one the program uses
(`ENV_PATH_TOKEN[0]`, and as the delimiter set of `strsep` and `strtok`). -/
def ENV_PATH_TOKEN : Char := ':'

/-- Lines 92 to 96. -/
def ACCESS_FILE : Nat :=
  LANDLOCK_ACCESS_FS_EXECUTE |||
  LANDLOCK_ACCESS_FS_WRITE_FILE |||
  LANDLOCK_ACCESS_FS_READ_FILE |||
  LANDLOCK_ACCESS_FS_TRUNCATE

/-- Lines 206 to 209. -/
def ACCESS_FS_ROUGHLY_READ : Nat :=
  LANDLOCK_ACCESS_FS_EXECUTE |||
  LANDLOCK_ACCESS_FS_READ_FILE |||
  LANDLOCK_ACCESS_FS_READ_DIR

/-- Lines 211 to 223. -/
def ACCESS_FS_ROUGHLY_WRITE : Nat :=
  LANDLOCK_ACCESS_FS_WRITE_FILE |||
  LANDLOCK_ACCESS_FS_REMOVE_DIR |||
  LANDLOCK_ACCESS_FS_REMOVE_FILE |||
  LANDLOCK_ACCESS_FS_MAKE_CHAR |||
  LANDLOCK_ACCESS_FS_MAKE_DIR |||
  LANDLOCK_ACCESS_FS_MAKE_REG |||
  LANDLOCK_ACCESS_FS_MAKE_SOCK |||
  LANDLOCK_ACCESS_FS_MAKE_FIFO |||
  LANDLOCK_ACCESS_FS_MAKE_BLOCK |||
  LANDLOCK_ACCESS_FS_MAKE_SYM |||
  LANDLOCK_ACCESS_FS_REFER |||
  LANDLOCK_ACCESS_FS_TRUNCATE

/-- Line 227. -/
def LANDLOCK_ABI_LAST : Nat := 4

/-- The complement `~x` of a `__u64` value `x < 2 ^ 64`. -/
def u64_not (x : Nat) : Nat := (2 ^ 64 - 1) ^^^ x

/-! ## Messages, events, the kernel -/

/-- What the program writes to standard error: one constructor for each
`fprintf(stderr, ...)` or `perror` of the source, holding the arguments of the
format string.  An `errno` argument stands for the text `strerror(errno)`. -/
inductive Msg where
  /-- Lines 244 to 281, the usage text; its argument is `argv[0]`. -/
  | usage (argv0 : Option CStr)
  /-- A call `perror(s)` with the value of `errno` at the call. -/
  | perror (s : String) (errno : Nat)
  /-- Lines 292 to 296. -/
  | hintNotSupported
  /-- Lines 299 to 304. -/
  | hintDisabled
  /-- Lines 336 to 340, with arguments `LANDLOCK_ABI_LAST` and `abi`. -/
  | hintUpdateKernel (last abi : Nat)
  /-- Lines 345 to 349, with arguments `abi` and `LANDLOCK_ABI_LAST`. -/
  | hintUpdateSandboxer (abi last : Nat)
  /-- Line 113: "Missing environment variable %s". -/
  | missingEnv (env_var : String)
  /-- Lines 133 and 134: "Failed to open \"%s\": %s". -/
  | failedOpen (path : CStr) (errno : Nat)
  /-- Lines 146 to 148: "Failed to update the ruleset with \"%s\": %s". -/
  | failedUpdatePath (path : CStr) (errno : Nat)
  /-- Lines 191 to 193: "Failed to update the ruleset with port \"%d\": %s";
  the argument is the `port` field of the rule. -/
  | failedUpdatePort (port : Nat) (errno : Nat)
  /-- Lines 387 and 388: "Failed to execute \"%s\": %s". -/
  | failedExecute (cmd_path : CStr) (errno : Nat)
  /-- Lines 389 and 390. -/
  | hintExecDenied
  deriving DecidableEq, Repr

/-- The calls the program makes to the outside, with their arguments. -/
inductive Event where
  /-- `landlock_create_ruleset(NULL, 0, LANDLOCK_CREATE_RULESET_VERSION)`, line 285. -/
  | query_abi
  /-- `landlock_create_ruleset(&ruleset_attr, sizeof(ruleset_attr), 0)`, line 355,
  with the two fields of `ruleset_attr`. -/
  | create_ruleset (handled_access_fs handled_access_net : Nat)
  /-- `open(path, O_PATH | O_CLOEXEC)`, line 131. -/
  | open_path (path : CStr)
  /-- `fstat(fd, &statbuf)`, line 137. -/
  | fstat (fd : Nat)
  /-- `landlock_add_rule(ruleset_fd, LANDLOCK_RULE_PATH_BENEATH, &path_beneath, 0)`,
  line 144, with the two fields of `path_beneath`. -/
  | add_rule_path (ruleset_fd parent_fd allowed_access : Nat)
  /-- `landlock_add_rule(ruleset_fd, LANDLOCK_RULE_NET_SERVICE, &net_service, 0)`,
  line 189, with the two fields of `net_service`. -/
  | add_rule_net (ruleset_fd port allowed_access : Nat)
  /-- `close(fd)`. -/
  | close (fd : Nat)
  /-- `prctl(PR_SET_NO_NEW_PRIVS, 1, 0, 0, 0)`, line 374. -/
  | no_new_privs
  /-- `landlock_restrict_self(ruleset_fd, 0)`, line 378. -/
  | restrict_self (ruleset_fd : Nat)
  /-- `execvpe(cmd_path, cmd_argv, envp)`, line 386 (the environment block is
  not part of the model). -/
  | execvpe (cmd_path : CStr) (cmd_argv : List CStr)
  /-- A message written to standard error. -/
  | stderr (m : Msg)
  deriving DecidableEq, Repr

/-- The answers of the kernel.  Each answer is given from the trace of the calls
made before the call and the arguments of the call.  `Except.error e` is a
failed call that sets `errno` to `e` (a return value of `-1`); `Except.ok` is a
successful one. -/
structure World where
  /-- The ABI version returned by the call of line 285. -/
  query_abi : Except Nat Nat
  /-- The descriptor returned by the call of line 355. -/
  create_ruleset : List Event → Nat → Nat → Except Nat Nat
  /-- The descriptor returned by `open`. -/
  open_path : List Event → CStr → Except Nat Nat
  /-- The result of `fstat`: on success, whether `S_ISDIR(statbuf.st_mode)`. -/
  fstat : List Event → Nat → Except Nat Bool
  /-- The result of `landlock_add_rule` for a path rule. -/
  add_rule_path : List Event → Nat → Nat → Nat → Except Nat Unit
  /-- The result of `landlock_add_rule` for a network rule. -/
  add_rule_net : List Event → Nat → Nat → Nat → Except Nat Unit
  /-- The result of `prctl(PR_SET_NO_NEW_PRIVS, ...)`. -/
  no_new_privs : List Event → Except Nat Unit
  /-- The result of `landlock_restrict_self`. -/
  restrict_self : List Event → Nat → Except Nat Unit
  /-- The result of `execvpe`: `none` when the process image is replaced (the call
  does not return), `some e` when it fails with `errno = e`. -/
  execvpe : List Event → CStr → List CStr → Option Nat

/-- The environment of the process: `getenv`. -/
abbrev Env := String → Option CStr

/-- The function `unsetenv` of the C library. -/
def unsetenv (name : String) (env : Env) : Env :=
  fun n => if n = name then none else env n

/-- The mutable state of the process: its environment and the trace so far. -/
structure State where
  env : Env
  trace : List Event

/-- How `main` ends. -/
inductive Outcome where
  /-- The function `main` returns `status`. -/
  | exit (status : Nat)
  /-- The call `execvpe` succeeded: the process image is replaced. -/
  | execed
  /-- The behaviour is undefined: a null pointer is dereferenced, or `free` is
  called with a pointer that no allocation returned (glibc aborts the process).
  The function `main` does not return. -/
  | fault
  deriving DecidableEq, Repr

/-! ## The C library -/

/-- The function `strsep(&stringp, ":")` of the C library, from the value of
`stringp` before the call (`none` is `NULL`) to the token returned and the value
of `stringp` after the call. -/
def strsep : Option CStr → Option CStr × Option CStr
  | none => (none, none)
  | some s =>
    match s.span (fun c => c != ENV_PATH_TOKEN) with
    | (tok, []) => (some tok, none)
    | (tok, _ :: rest) => (some tok, some rest)

/-- The first call `strtok(s, ":")` of the C library: the token returned (`none`
is `NULL`) and the content of the buffer `s` after the call, where the delimiter
that ends the token is overwritten by NUL. -/
def strtok (s : CStr) : Option CStr × CStr :=
  let lead := s.takeWhile (fun c => c == ENV_PATH_TOKEN)
  let body := s.dropWhile (fun c => c == ENV_PATH_TOKEN)
  match body with
  | [] => (none, s)
  | _ :: _ =>
    let tok := body.takeWhile (fun c => c != ENV_PATH_TOKEN)
    (some tok, lead ++ tok)

/-- The function `isspace` of the C library in the C locale. -/
def isspace (c : Char) : Bool :=
  c == ' ' || c == '\t' || c == '\n' || c == Char.ofNat 11 || c == Char.ofNat 12 || c == '\r'

/-- The function `atoi` of the C library (glibc: `(int) strtol(s, NULL, 10)`):
white space is skipped, then an optional sign and the longest run of decimal
digits are read; the `long` result saturates, and its low 32 bits are the `int`
returned. -/
def atoi (s : CStr) : Int :=
  let s1 := s.dropWhile isspace
  let neg := s1.head? == some '-'
  let s2 := if s1.head? == some '-' || s1.head? == some '+' then s1.tail else s1
  let digits := s2.takeWhile Char.isDigit
  let v : Nat := digits.foldl (fun a c => 10 * a + (c.toNat - 48)) 0
  let l : Int :=
    if neg then max (-(v : Int)) (-(2 : Int) ^ 63) else min (v : Int) ((2 : Int) ^ 63 - 1)
  (l + 2 ^ 31) % 2 ^ 32 - 2 ^ 31

/-- The conversion of an `int` to `__u64` (line 188: the `port` field is a `__u64`). -/
def u64_of_int (i : Int) : Nat := (i % 2 ^ 64).toNat

/-! ## The functions of the source -/

/-- The counting loop of lines 62 to 68 (and 80 to 86): one, plus the number of
`ENV_PATH_TOKEN[0]` in the string; zero for `NULL`.  The counter is an `int`; a
string of the environment is far shorter than `2 ^ 31` bytes, so it does not
overflow. -/
def count_tokens : Option CStr → Nat
  | none => 0
  | some s => s.foldl (fun num c => if c == ENV_PATH_TOKEN then num + 1 else num) 1

/-- The loop of lines 70 and 71: `n` calls of `strsep`. -/
def strsep_loop : Nat → Option CStr → List (Option CStr)
  | 0, _ => []
  | n + 1, stringp => (strsep stringp).1 :: strsep_loop n (strsep stringp).2

/-- The function `parse_path`, lines 58 to 74: the number returned and the
content of `*path_list`. -/
def parse_path (env_path : Option CStr) : Nat × List (Option CStr) :=
  let num_paths := count_tokens env_path
  (num_paths, strsep_loop num_paths env_path)

/-- The function `parse_port_num`, lines 76 to 88. -/
def parse_port_num (env_port : Option CStr) : Nat :=
  count_tokens env_port

/-- The loop of lines 128 to 153 of `populate_ruleset_fs`, over the entries of
`path_list` that are left: the value of `ret` at `out_free_name` (`none` when a
`NULL` entry is dereferenced) and the trace. -/
def populate_ruleset_fs_loop (w : World) (ruleset_fd allowed_access : Nat) :
    List (Option CStr) → List Event → Option Nat × List Event
  | [], tr => (some 0, tr)
  | none :: _, tr => (none, tr)
  | some path :: rest, tr =>
    match w.open_path tr path with
    | .error errno =>
      (some 1, tr ++ [.open_path path, .stderr (.failedOpen path errno)])
    | .ok parent_fd =>
      match w.fstat (tr ++ [.open_path path]) parent_fd with
      | .error _ =>
        (some 1, tr ++ [.open_path path, .fstat parent_fd, .close parent_fd])
      | .ok isdir =>
        let access := if isdir then allowed_access else allowed_access &&& ACCESS_FILE
        match w.add_rule_path (tr ++ [.open_path path, .fstat parent_fd])
            ruleset_fd parent_fd access with
        | .error errno =>
          (some 1, tr ++ [.open_path path, .fstat parent_fd,
            .add_rule_path ruleset_fd parent_fd access,
            .stderr (.failedUpdatePath path errno), .close parent_fd])
        | .ok _ =>
          populate_ruleset_fs_loop w ruleset_fd allowed_access rest
            (tr ++ [.open_path path, .fstat parent_fd,
              .add_rule_path ruleset_fd parent_fd access, .close parent_fd])

/-- The function `populate_ruleset_fs`, lines 100 to 160: the value returned
(`none` when a `NULL` pointer is dereferenced) and the state after the call. -/
def populate_ruleset_fs (w : World) (env_var : String) (ruleset_fd allowed_access : Nat)
    (st : State) : Option Nat × State :=
  match st.env env_var with
  | none => (some 1, { st with trace := st.trace ++ [.stderr (.missingEnv env_var)] })
  | some env_path_name =>
    let env := unsetenv env_var st.env
    let (num_paths, path_list) := parse_path (some env_path_name)
    let r := populate_ruleset_fs_loop w ruleset_fd allowed_access path_list st.trace
    if num_paths == 1 then
      match path_list with
      | some [] :: _ => (some 0, { env := env, trace := st.trace })
      | some (_ :: _) :: _ => (r.1, { env := env, trace := r.2 })
      | _ => (none, { env := env, trace := st.trace })
    else
      (r.1, { env := env, trace := r.2 })

/-- The loop of lines 186 to 196 of `populate_ruleset_net` and the
`free(env_port_name)` of line 200, with the number of iterations that are left
and the value of `env_port_name`: the value returned (`none` when the
behaviour is undefined) and the trace.  The call of `strsep` at line 188 moves
`env_port_name` itself: past the colon that ends the token, or to `NULL` after
the last token.  When the rule of a token is refused, line 194 jumps to
`out_free_name` with this pointer: `free(NULL)` does nothing and the function
returns 1 after the last token, and before it `free` gets a pointer into the
middle of the buffer of `strdup`, which is undefined behaviour. -/
def populate_ruleset_net_loop (w : World) (ruleset_fd allowed_access : Nat) :
    Nat → Option CStr → List Event → Option Nat × List Event
  | 0, _, tr => (some 0, tr)
  | n + 1, env_port_name, tr =>
    match strsep env_port_name with
    | (none, _) => (none, tr)
    | (some tok, env_port_name') =>
      let port := u64_of_int (atoi tok)
      match w.add_rule_net tr ruleset_fd port allowed_access with
      | .error errno =>
        match env_port_name' with
        | none =>
          (some 1, tr ++ [.add_rule_net ruleset_fd port allowed_access,
            .stderr (.failedUpdatePort port errno)])
        | some _ =>
          (none, tr ++ [.add_rule_net ruleset_fd port allowed_access,
            .stderr (.failedUpdatePort port errno)])
      | .ok _ =>
        populate_ruleset_net_loop w ruleset_fd allowed_access n env_port_name'
          (tr ++ [.add_rule_net ruleset_fd port allowed_access])

/-- The function `populate_ruleset_net`, lines 162 to 202: the value returned
(`none` when the behaviour is undefined) and the state after the call.  At
`out_free_name` the pointer `env_port_name` is `NULL` when the variable is
absent and after the last token of the loop, and the start of the buffer of
`strdup` in the branch of line 181, where `strtok` does not move it. -/
def populate_ruleset_net (w : World) (env_var : String) (ruleset_fd allowed_access : Nat)
    (st : State) : Option Nat × State :=
  match st.env env_var with
  | none => (some 0, st)
  | some env_port_name =>
    let env := unsetenv env_var st.env
    let num_ports := parse_port_num (some env_port_name)
    if num_ports == 1 && (strtok env_port_name).1 == none then
      (some 0, { env := env, trace := st.trace })
    else
      let buf := if num_ports == 1 then (strtok env_port_name).2 else env_port_name
      let r := populate_ruleset_net_loop w ruleset_fd allowed_access num_ports (some buf)
        st.trace
      (r.1, { env := env, trace := r.2 })

/-- The structure `landlock_ruleset_attr`. -/
structure RulesetAttr where
  handled_access_fs : Nat
  handled_access_net : Nat
  deriving DecidableEq, Repr

/-- Lines 310 to 320 of `main`: the value of `access_net_tcp`. -/
def access_net_tcp (env : Env) : Nat :=
  let a := 0
  let a := if (env ENV_TCP_BIND_NAME).isSome then a ||| LANDLOCK_ACCESS_NET_BIND_TCP else a
  let a := if (env ENV_TCP_CONNECT_NAME).isSome then a ||| LANDLOCK_ACCESS_NET_CONNECT_TCP else a
  a

/-- The `switch (abi)` of lines 322 to 350 of `main`, with its fallthrough: the
value of `ruleset_attr` after it and what it writes to standard error. -/
def best_effort (abi : Nat) (ruleset_attr : RulesetAttr) : RulesetAttr × List Msg :=
  let case3 (a : RulesetAttr) : RulesetAttr × List Msg :=
    ({ a with handled_access_net := 0 }, [.hintUpdateKernel LANDLOCK_ABI_LAST abi])
  let case2 (a : RulesetAttr) : RulesetAttr × List Msg :=
    case3 { a with
      handled_access_fs := a.handled_access_fs &&& u64_not LANDLOCK_ACCESS_FS_TRUNCATE }
  let case1 (a : RulesetAttr) : RulesetAttr × List Msg :=
    case2 { a with
      handled_access_fs := a.handled_access_fs &&& u64_not LANDLOCK_ACCESS_FS_REFER }
  match abi with
  | 1 => case1 ruleset_attr
  | 2 => case2 ruleset_attr
  | 3 => case3 ruleset_attr
  | 4 => (ruleset_attr, [])
  | _ => (ruleset_attr, [.hintUpdateSandboxer abi LANDLOCK_ABI_LAST])

/-- Lines 374 to 395 of `main`: the privilege lock, the enforcement of the
ruleset and the execution of the command. -/
def main_enforce (w : World) (argv : List CStr) (ruleset_fd : Nat) (tr : List Event) :
    Outcome × List Event :=
  match w.no_new_privs tr with
  | .error errno =>
    (.exit 1, tr ++ [.no_new_privs,
      .stderr (.perror "Failed to restrict privileges" errno), .close ruleset_fd])
  | .ok _ =>
  match w.restrict_self (tr ++ [.no_new_privs]) ruleset_fd with
  | .error errno =>
    (.exit 1, tr ++ [.no_new_privs, .restrict_self ruleset_fd,
      .stderr (.perror "Failed to enforce ruleset" errno), .close ruleset_fd])
  | .ok _ =>
  match argv with
  | _ :: cmd_path :: cmd_args =>
    match w.execvpe (tr ++ [.no_new_privs, .restrict_self ruleset_fd, .close ruleset_fd])
        cmd_path (cmd_path :: cmd_args) with
    | none =>
      (.execed, tr ++ [.no_new_privs, .restrict_self ruleset_fd, .close ruleset_fd,
        .execvpe cmd_path (cmd_path :: cmd_args)])
    | some errno =>
      (.exit 1, tr ++ [.no_new_privs, .restrict_self ruleset_fd, .close ruleset_fd,
        .execvpe cmd_path (cmd_path :: cmd_args),
        .stderr (.failedExecute cmd_path errno), .stderr .hintExecDenied])
  | _ => (.fault, tr ++ [.no_new_privs, .restrict_self ruleset_fd, .close ruleset_fd])

/-- Lines 360 to 373 of `main` and what follows them: the four calls that
populate the ruleset, each followed by `goto err_close_ruleset` when it returns
a value that is not zero. -/
def main_populate (w : World) (argv : List CStr) (ruleset_fd access_fs_ro access_fs_rw : Nat)
    (st : State) : Outcome × List Event :=
  match populate_ruleset_fs w ENV_FS_RO_NAME ruleset_fd access_fs_ro st with
  | (none, st1) => (.fault, st1.trace)
  | (some (_ + 1), st1) => (.exit 1, st1.trace ++ [.close ruleset_fd])
  | (some 0, st1) =>
  match populate_ruleset_fs w ENV_FS_RW_NAME ruleset_fd access_fs_rw st1 with
  | (none, st2) => (.fault, st2.trace)
  | (some (_ + 1), st2) => (.exit 1, st2.trace ++ [.close ruleset_fd])
  | (some 0, st2) =>
  match populate_ruleset_net w ENV_TCP_BIND_NAME ruleset_fd LANDLOCK_ACCESS_NET_BIND_TCP st2 with
  | (none, st3) => (.fault, st3.trace)
  | (some (_ + 1), st3) => (.exit 1, st3.trace ++ [.close ruleset_fd])
  | (some 0, st3) =>
  match populate_ruleset_net w ENV_TCP_CONNECT_NAME ruleset_fd
      LANDLOCK_ACCESS_NET_CONNECT_TCP st3 with
  | (none, st4) => (.fault, st4.trace)
  | (some (_ + 1), st4) => (.exit 1, st4.trace ++ [.close ruleset_fd])
  | (some 0, st4) => main_enforce w argv ruleset_fd st4.trace

/-- The function `main`, lines 229 to 396, from the answers of the kernel, the
argument vector (`argc` is its length) and the environment: how the process
ends, and the trace of its calls and messages. -/
def main (w : World) (argv : List CStr) (env : Env) : Outcome × List Event :=
  if argv.length < 2 then
    (.exit 1, [.stderr (.usage argv.head?)])
  else
    match w.query_abi with
    | .error err =>
      (.exit 1, [.query_abi, .stderr (.perror "Failed to check Landlock compatibility" err)] ++
        (if err = ENOSYS then [.stderr .hintNotSupported]
         else if err = EOPNOTSUPP then [.stderr .hintDisabled] else []))
    | .ok abi =>
      let access_fs_ro := ACCESS_FS_ROUGHLY_READ
      let access_fs_rw := ACCESS_FS_ROUGHLY_READ ||| ACCESS_FS_ROUGHLY_WRITE
      let ruleset_attr : RulesetAttr :=
        { handled_access_fs := access_fs_rw, handled_access_net := access_net_tcp env }
      let (ruleset_attr, hints) := best_effort abi ruleset_attr
      let access_fs_ro := access_fs_ro &&& ruleset_attr.handled_access_fs
      let access_fs_rw := access_fs_rw &&& ruleset_attr.handled_access_fs
      let tr := [Event.query_abi] ++ hints.map Event.stderr
      match w.create_ruleset tr ruleset_attr.handled_access_fs
          ruleset_attr.handled_access_net with
      | .error errno =>
        (.exit 1, tr ++ [.create_ruleset ruleset_attr.handled_access_fs
            ruleset_attr.handled_access_net,
          .stderr (.perror "Failed to create a ruleset" errno)])
      | .ok ruleset_fd =>
        main_populate w argv ruleset_fd access_fs_ro access_fs_rw
          { env := env,
            trace := tr ++ [.create_ruleset ruleset_attr.handled_access_fs
              ruleset_attr.handled_access_net] }

/-! ## Runs, failing steps and the other notions of the statements -/

/-- One step of the population of the ruleset: the report of a missing
variable, the rule of one path, or the rule of one port token, with whether
tokens of the same variable are left after it. -/
inductive Step where
  | missing (env_var : String)
  | path (allowed_access : Nat) (p : CStr)
  | port (allowed_access : Nat) (tok : CStr) (more : Bool)

/-- The events of an iteration of the loop of `populate_ruleset_fs` in which
every call succeeds. -/
def path_block (rfd a : Nat) (p : CStr) (fd : Nat) (d : Bool) : List Event :=
  [.open_path p, .fstat fd,
    .add_rule_path rfd fd (if d then a else a &&& ACCESS_FILE), .close fd]

/-- The event of an iteration of the loop of `populate_ruleset_net`. -/
def port_event (rfd a : Nat) (tok : CStr) : Event :=
  .add_rule_net rfd (u64_of_int (atoi tok)) a

/-- The runs of a list of steps as a relation: from the trace before the first
step and the steps that are left, to the way the run ends and the events that
are added.  The run ends with `0` when every step succeeds, with `1` when a
step fails and its function returns 1, and with `2` when the rule of a port is
refused while tokens of its variable are left, where the behaviour of line 200
is undefined; no later step is run after `1` or `2`. -/
inductive Runs (w : World) (rfd : Nat) : List Event → List Step → Nat → List Event → Prop
  | done (tr : List Event) : Runs w rfd tr [] 0 []
  | missing (tr : List Event) (var : String) (rest : List Step) :
      Runs w rfd tr (.missing var :: rest) 1 [.stderr (.missingEnv var)]
  | open_fail (tr : List Event) (a : Nat) (p : CStr) (rest : List Step) (e : Nat)
      (h1 : w.open_path tr p = .error e) :
      Runs w rfd tr (.path a p :: rest) 1 [.open_path p, .stderr (.failedOpen p e)]
  | fstat_fail (tr : List Event) (a : Nat) (p : CStr) (rest : List Step) (fd e : Nat)
      (h1 : w.open_path tr p = .ok fd)
      (h2 : w.fstat (tr ++ [.open_path p]) fd = .error e) :
      Runs w rfd tr (.path a p :: rest) 1 [.open_path p, .fstat fd, .close fd]
  | path_fail (tr : List Event) (a : Nat) (p : CStr) (rest : List Step) (fd : Nat) (d : Bool)
      (e : Nat)
      (h1 : w.open_path tr p = .ok fd)
      (h2 : w.fstat (tr ++ [.open_path p]) fd = .ok d)
      (h3 : w.add_rule_path (tr ++ [.open_path p, .fstat fd]) rfd fd
        (if d then a else a &&& ACCESS_FILE) = .error e) :
      Runs w rfd tr (.path a p :: rest) 1 [.open_path p, .fstat fd,
        .add_rule_path rfd fd (if d then a else a &&& ACCESS_FILE),
        .stderr (.failedUpdatePath p e), .close fd]
  | path_ok (tr : List Event) (a : Nat) (p : CStr) (rest : List Step) (fd : Nat) (d : Bool)
      (ret : Nat) (evs : List Event)
      (h1 : w.open_path tr p = .ok fd)
      (h2 : w.fstat (tr ++ [.open_path p]) fd = .ok d)
      (h3 : w.add_rule_path (tr ++ [.open_path p, .fstat fd]) rfd fd
        (if d then a else a &&& ACCESS_FILE) = .ok ())
      (h4 : Runs w rfd (tr ++ path_block rfd a p fd d) rest ret evs) :
      Runs w rfd tr (.path a p :: rest) ret (path_block rfd a p fd d ++ evs)
  | port_fail (tr : List Event) (a : Nat) (tok : CStr) (rest : List Step) (e : Nat)
      (h1 : w.add_rule_net tr rfd (u64_of_int (atoi tok)) a = .error e) :
      Runs w rfd tr (.port a tok false :: rest) 1 [port_event rfd a tok,
        .stderr (.failedUpdatePort (u64_of_int (atoi tok)) e)]
  | port_abort (tr : List Event) (a : Nat) (tok : CStr) (rest : List Step) (e : Nat)
      (h1 : w.add_rule_net tr rfd (u64_of_int (atoi tok)) a = .error e) :
      Runs w rfd tr (.port a tok true :: rest) 2 [port_event rfd a tok,
        .stderr (.failedUpdatePort (u64_of_int (atoi tok)) e)]
  | port_ok (tr : List Event) (a : Nat) (tok : CStr) (more : Bool) (rest : List Step)
      (ret : Nat) (evs : List Event)
      (h1 : w.add_rule_net tr rfd (u64_of_int (atoi tok)) a = .ok ())
      (h2 : Runs w rfd (tr ++ [port_event rfd a tok]) rest ret evs) :
      Runs w rfd tr (.port a tok more :: rest) ret (port_event rfd a tok :: evs)

/-- The entries of a list variable: none for the empty string (the sentinel),
and otherwise the tokens between the colons. -/
def entries (s : CStr) : List CStr :=
  if s = [] then [] else s.splitOn ENV_PATH_TOKEN

/-- The steps of a call of `populate_ruleset_fs`. -/
def fs_steps (env : Env) (var : String) (a : Nat) : List Step :=
  match env var with
  | none => [.missing var]
  | some s => (entries s).map (.path a)

/-- The steps of the port tokens of one variable: every token but the last
has tokens left after it. -/
def port_steps (a : Nat) : List CStr → List Step
  | [] => []
  | tok :: rest => .port a tok (!rest.isEmpty) :: port_steps a rest

/-- The value of `ret` for the end of a run: undefined behaviour has none. -/
def ret_value (ret : Nat) : Option Nat :=
  if ret = 2 then none else some ret

/-- The steps of a call of `populate_ruleset_net`. -/
def net_steps (env : Env) (var : String) (a : Nat) : List Step :=
  match env var with
  | none => []
  | some s => port_steps a (entries s)

/-- The steps of the four calls of lines 360 to 373 of `main`. -/
def plan (env : Env) (access_fs_ro access_fs_rw : Nat) : List Step :=
  fs_steps env ENV_FS_RO_NAME access_fs_ro ++ (fs_steps env ENV_FS_RW_NAME access_fs_rw ++
    (net_steps env ENV_TCP_BIND_NAME LANDLOCK_ACCESS_NET_BIND_TCP ++
      net_steps env ENV_TCP_CONNECT_NAME LANDLOCK_ACCESS_NET_CONNECT_TCP))

/-- The value of `ruleset_attr` that `main` passes to `landlock_create_ruleset`
at line 355, when the ABI version is `abi`. -/
def effective_attr (env : Env) (abi : Nat) : RulesetAttr :=
  (best_effort abi { handled_access_fs := ACCESS_FS_ROUGHLY_READ ||| ACCESS_FS_ROUGHLY_WRITE,
                     handled_access_net := access_net_tcp env }).1

/-- The trace of `main` up to the call of line 355, without this call. -/
def query_trace (env : Env) (abi : Nat) : List Event :=
  Event.query_abi ::
    (best_effort abi { handled_access_fs := ACCESS_FS_ROUGHLY_READ ||| ACCESS_FS_ROUGHLY_WRITE,
                       handled_access_net := access_net_tcp env }).2.map Event.stderr

/-- The trace of `main` up to the call of line 355, with this call. -/
def setup_trace (env : Env) (abi : Nat) : List Event :=
  query_trace env abi ++ [.create_ruleset (effective_attr env abi).handled_access_fs
    (effective_attr env abi).handled_access_net]

/-- The value of `access_fs_ro` after line 351. -/
def effective_fs_ro (env : Env) (abi : Nat) : Nat :=
  ACCESS_FS_ROUGHLY_READ &&& (effective_attr env abi).handled_access_fs

/-- The value of `access_fs_rw` after line 352. -/
def effective_fs_rw (env : Env) (abi : Nat) : Nat :=
  (ACCESS_FS_ROUGHLY_READ ||| ACCESS_FS_ROUGHLY_WRITE) &&&
    (effective_attr env abi).handled_access_fs

/-- Whether the call `e` fails when it is made after the calls of `hist`.  The
report of a missing mandatory variable counts as a failing step. -/
def step_fails (w : World) (hist : List Event) : Event → Bool
  | .open_path p => !(w.open_path hist p).toBool
  | .fstat fd => !(w.fstat hist fd).toBool
  | .add_rule_path r f a => !(w.add_rule_path hist r f a).toBool
  | .add_rule_net r p a => !(w.add_rule_net hist r p a).toBool
  | .no_new_privs => !(w.no_new_privs hist).toBool
  | .restrict_self r => !(w.restrict_self hist r).toBool
  | .stderr (.missingEnv _) => true
  | _ => false

/-- Every event of a list satisfies `Q`, together with the trace before it. -/
def EventsAll (Q : List Event → Event → Prop) : List Event → List Event → Prop
  | _, [] => True
  | h, e :: es => Q h e ∧ EventsAll Q (h ++ [e]) es

/-- No step of a list of events fails. -/
def Clean (w : World) : List Event → List Event → Prop :=
  EventsAll (fun h e => step_fails w h e = false)

/-- The events that can follow a failing step: the calls of `close`, and the
messages other than the report of a missing variable. -/
def quiet : Event → Bool
  | .close _ => true
  | .stderr (.missingEnv _) => false
  | .stderr _ => true
  | _ => false

/-- The events of the population of the ruleset. -/
def populate_kind : Event → Bool
  | .open_path _ => true
  | .fstat _ => true
  | .add_rule_path _ _ _ => true
  | .add_rule_net _ _ _ => true
  | .close _ => true
  | .stderr _ => true
  | _ => false

/-- The events of `main` after the creation of the ruleset. -/
def after_create_kind : Event → Bool
  | .query_abi => false
  | .create_ruleset _ _ => false
  | _ => true

/-- The calls of the enforcement: the privilege lock, `landlock_restrict_self`
and `execvpe`. -/
def enforce_kind : Event → Bool
  | .no_new_privs => true
  | .restrict_self _ => true
  | .execvpe _ _ => true
  | _ => false

/-- The calls that come after the privilege lock: `landlock_restrict_self` and
`execvpe`. -/
def late_kind : Event → Bool
  | .restrict_self _ => true
  | .execvpe _ _ => true
  | _ => false

/-- The events that can follow the privilege lock. -/
def after_lock_kind : Event → Bool
  | .restrict_self _ => true
  | .close _ => true
  | .execvpe _ _ => true
  | .stderr _ => true
  | _ => false

/-- The entries of an optional list variable: none when the variable is not in
the environment. -/
def optional_entries : Option CStr → List CStr
  | none => []
  | some s => entries s

/-- The registration of a path rule `e`, made after the calls of `h`, follows
the `open` and the `fstat` of a path of the steps `S`, both made after the calls
of `tr0`, and its mask is the one of this step when `fstat` finds a directory,
and its intersection with `ACCESS_FILE` otherwise. -/
def RuleOk (w : World) (S : List Step) (tr0 h : List Event) : Event → Prop
  | .add_rule_path _ f m => ∃ pre a p d, h = tr0 ++ pre ++ [.open_path p, .fstat f] ∧
      Step.path a p ∈ S ∧ w.open_path (tr0 ++ pre) p = .ok f ∧
      w.fstat (tr0 ++ pre ++ [.open_path p]) f = .ok d ∧
      m = (if d then a else a &&& ACCESS_FILE)
  | _ => True

/-- The rights of `ACCESS_FS_ROUGHLY_READ` and `ACCESS_FS_ROUGHLY_WRITE` that
are not in `ACCESS_FILE`: read-dir, the remove and make rights, and refer. -/
def ACCESS_DIR_ONLY : Nat :=
  LANDLOCK_ACCESS_FS_READ_DIR |||
  LANDLOCK_ACCESS_FS_REMOVE_DIR |||
  LANDLOCK_ACCESS_FS_REMOVE_FILE |||
  LANDLOCK_ACCESS_FS_MAKE_CHAR |||
  LANDLOCK_ACCESS_FS_MAKE_DIR |||
  LANDLOCK_ACCESS_FS_MAKE_REG |||
  LANDLOCK_ACCESS_FS_MAKE_SOCK |||
  LANDLOCK_ACCESS_FS_MAKE_FIFO |||
  LANDLOCK_ACCESS_FS_MAKE_BLOCK |||
  LANDLOCK_ACCESS_FS_MAKE_SYM |||
  LANDLOCK_ACCESS_FS_REFER

/-! ## Worlds and environments of the examples -/

/-- The world in which every call succeeds, at ABI version `abi`: the ruleset
gets descriptor 3, every path gets descriptor 4 and is a directory. -/
def world_ok (abi : Nat) : World where
  query_abi := .ok abi
  create_ruleset := fun _ _ _ => .ok 3
  open_path := fun _ _ => .ok 4
  fstat := fun _ _ => .ok true
  add_rule_path := fun _ _ _ _ => .ok ()
  add_rule_net := fun _ _ _ _ => .ok ()
  no_new_privs := fun _ => .ok ()
  restrict_self := fun _ _ => .ok ()
  execvpe := fun _ _ _ => none

/-- An environment from the values of the four variables. -/
def env_of (ro rw bind connect : Option String) : Env := fun n =>
  if n = ENV_FS_RO_NAME then ro.map String.toList
  else if n = ENV_FS_RW_NAME then rw.map String.toList
  else if n = ENV_TCP_BIND_NAME then bind.map String.toList
  else if n = ENV_TCP_CONNECT_NAME then connect.map String.toList
  else none

/-- The world of `world_ok` at ABI version 4, except that the registration of a
path rule fails with `EINVAL` once `/b` has been opened. -/
def world_rule_fails : World :=
  { world_ok 4 with
    add_rule_path := fun tr _ _ _ =>
      if Event.open_path "/b".toList ∈ tr then .error 22 else .ok () }

/-- The world of `world_ok` at ABI version 2, except that no path is a
directory. -/
def world_files : World :=
  { world_ok 2 with fstat := fun _ _ => .ok false }

/-- The world of `world_ok` at ABI version 4, except that `open` fails with
`ENOENT`. -/
def world_open_fails : World :=
  { world_ok 4 with open_path := fun _ _ => .error 2 }

/-- The world of `world_ok` at ABI version 4, except that `fstat` fails with
`EIO`. -/
def world_fstat_fails : World :=
  { world_ok 4 with fstat := fun _ _ => .error 5 }

/-- The world of `world_ok` at ABI version 3, except that the registration of a
network rule fails with `EINVAL`, as it does for a ruleset that does not handle
the right of the rule. -/
def world_net_rejects : World :=
  { world_ok 3 with add_rule_net := fun _ _ _ _ => .error 22 }

/-- The world of `world_ok` at ABI version 4, except that the registration of a
network rule fails with `EINVAL` for a port above 65535, as it does in the
kernel. -/
def world_port_range : World :=
  { world_ok 4 with
    add_rule_net := fun _ _ port _ => if port ≤ 65535 then .ok () else .error 22 }

/-! ## Lemmas -/

theorem count_tokens_fold (s : CStr) (n : Nat) :
    s.foldl (fun num c => if c == ENV_PATH_TOKEN then num + 1 else num) n
      = n + s.count ENV_PATH_TOKEN := by
  induction s generalizing n with
  | nil => simp
  | cons c s ih =>
    simp only [List.foldl_cons, ih, List.count_cons]
    by_cases h : c = ENV_PATH_TOKEN
    · simp [h]; omega
    · simp [h]

theorem count_tokens_some (s : CStr) :
    count_tokens (some s) = 1 + s.count ENV_PATH_TOKEN := by
  exact count_tokens_fold s 1

theorem strsep_cons_sep (s : CStr) :
    strsep (some (ENV_PATH_TOKEN :: s)) = (some [], some s) := by
  simp [strsep, List.span_eq_take_drop, ENV_PATH_TOKEN]

theorem strsep_cons_other (c : Char) (s : CStr) (h : c ≠ ENV_PATH_TOKEN) :
    strsep (some (c :: s)) =
      ((strsep (some s)).1.map (List.cons c), (strsep (some s)).2) := by
  simp only [strsep, List.span_eq_take_drop]
  have hc : (c != ENV_PATH_TOKEN) = true := by simpa using h
  simp only [List.takeWhile_cons, List.dropWhile_cons, hc, if_true]
  cases hd : List.dropWhile (fun c => c != ENV_PATH_TOKEN) s <;> simp

theorem strsep_loop_some (s : CStr) :
    strsep_loop (1 + s.count ENV_PATH_TOKEN) (some s) =
      (s.splitOn ENV_PATH_TOKEN).map some := by
  induction s with
  | nil => simp [strsep_loop, strsep, List.span_eq_take_drop, Nat.add_comm]
  | cons c s ih =>
    by_cases h : c = ENV_PATH_TOKEN
    · subst h
      have : 1 + List.count ENV_PATH_TOKEN (ENV_PATH_TOKEN :: s)
          = (1 + List.count ENV_PATH_TOKEN s) + 1 := by simp; omega
      rw [this, strsep_loop, strsep_cons_sep, ih]
      simp [List.splitOn]
    · have hcnt : 1 + List.count ENV_PATH_TOKEN (c :: s)
          = List.count ENV_PATH_TOKEN s + 1 := by
        simp [List.count_cons, h]; omega
      have hcnt' : 1 + List.count ENV_PATH_TOKEN s = List.count ENV_PATH_TOKEN s + 1 := by omega
      rw [hcnt'] at ih
      rw [hcnt, strsep_loop, strsep_cons_other c s h]
      rw [strsep_loop] at ih
      have hne := List.splitOnP_ne_nil (· == ENV_PATH_TOKEN) s
      simp only [List.splitOn, List.splitOnP_cons]
      simp only [List.splitOn] at ih
      cases hs : List.splitOnP (· == ENV_PATH_TOKEN) s with
      | nil => exact absurd hs hne
      | cons hd tl =>
        rw [hs] at ih
        simp only [List.map_cons, List.cons.injEq] at ih
        simp [h, ih.1, ih.2]

theorem parse_path_some (s : CStr) :
    parse_path (some s) =
      (1 + s.count ENV_PATH_TOKEN, (s.splitOn ENV_PATH_TOKEN).map some) := by
  simp only [parse_path, count_tokens_some, strsep_loop_some]

theorem splitOn_colon_free (s : CStr) : ∀ t ∈ s.splitOn ENV_PATH_TOKEN, ENV_PATH_TOKEN ∉ t := by
  induction s with
  | nil => simp
  | cons c s ih =>
    simp only [List.splitOn, List.splitOnP_cons]
    simp only [List.splitOn] at ih
    by_cases h : c = ENV_PATH_TOKEN
    · subst h; simpa using ih
    · have hne := List.splitOnP_ne_nil (· == ENV_PATH_TOKEN) s
      cases hs : List.splitOnP (· == ENV_PATH_TOKEN) s with
      | nil => exact absurd hs hne
      | cons hd tl =>
        rw [hs] at ih
        simp only [List.mem_cons, forall_eq_or_imp] at ih
        simp only [beq_iff_eq, h, if_false, List.modifyHead_cons, List.mem_cons, forall_eq_or_imp]
        refine ⟨?_, ih.2⟩
        simp only [List.mem_cons, not_or]
        exact ⟨fun e => h e.symm, ih.1⟩

theorem splitOn_length (s : CStr) :
    (s.splitOn ENV_PATH_TOKEN).length = 1 + s.count ENV_PATH_TOKEN := by
  have := congrArg List.length (strsep_loop_some s)
  rw [List.length_map] at this
  rw [← this]
  generalize 1 + List.count ENV_PATH_TOKEN s = n
  generalize some s = sp
  induction n generalizing sp with
  | zero => simp [strsep_loop]
  | succ n ih => simp [strsep_loop, ih]

theorem fs_loop_run (w : World) (rfd a : Nat) (paths : List CStr) (tr : List Event) :
    ∃ ret evs, populate_ruleset_fs_loop w rfd a (paths.map some) tr = (some ret, tr ++ evs) ∧
      Runs w rfd tr (paths.map (.path a)) ret evs := by
  induction paths generalizing tr with
  | nil => exact ⟨0, [], by simp [populate_ruleset_fs_loop], .done tr⟩
  | cons p rest ih =>
    cases h1 : w.open_path tr p with
    | error e =>
      exact ⟨1, _, by simp only [List.map_cons, populate_ruleset_fs_loop, h1],
        .open_fail tr a p _ e h1⟩
    | ok fd =>
      cases h2 : w.fstat (tr ++ [.open_path p]) fd with
      | error e =>
        exact ⟨1, _, by simp only [List.map_cons, populate_ruleset_fs_loop, h1, h2],
          .fstat_fail tr a p _ fd e h1 h2⟩
      | ok d =>
        cases h3 : w.add_rule_path (tr ++ [.open_path p, .fstat fd]) rfd fd
            (if d then a else a &&& ACCESS_FILE) with
        | error e =>
          exact ⟨1, _, by simp only [List.map_cons, populate_ruleset_fs_loop, h1, h2, h3],
            .path_fail tr a p _ fd d e h1 h2 h3⟩
        | ok u =>
          obtain ⟨ret, evs, hrun, hr⟩ := ih (tr ++ path_block rfd a p fd d)
          refine ⟨ret, _, ?_, .path_ok tr a p _ fd d ret evs h1 h2 h3 hr⟩
          simp only [path_block] at hrun
          simp only [List.map_cons, populate_ruleset_fs_loop, h1, h2, h3,
            hrun, List.append_assoc, path_block]

theorem strsep_spec (s : CStr) :
    (strsep (some s) = (some s, none) ∧ s.count ENV_PATH_TOKEN = 0 ∧
      s.splitOn ENV_PATH_TOKEN = [s]) ∨
    (∃ t s', strsep (some s) = (some t, some s') ∧
      s.count ENV_PATH_TOKEN = s'.count ENV_PATH_TOKEN + 1 ∧
      s.splitOn ENV_PATH_TOKEN = t :: s'.splitOn ENV_PATH_TOKEN) := by
  induction s with
  | nil => left; simp [strsep, List.span_eq_take_drop]
  | cons c s ih =>
    by_cases h : c = ENV_PATH_TOKEN
    · subst h
      right
      exact ⟨[], s, strsep_cons_sep s, by simp, by simp [List.splitOn]⟩
    · rw [strsep_cons_other c s h]
      have hcnt : List.count ENV_PATH_TOKEN (c :: s) = List.count ENV_PATH_TOKEN s := by
        simp [List.count_cons, h]
      have hsp : (c :: s).splitOn ENV_PATH_TOKEN =
          (s.splitOn ENV_PATH_TOKEN).modifyHead (List.cons c) := by
        simp [List.splitOn, List.splitOnP_cons, h]
      rcases ih with ⟨h1, h2, h3⟩ | ⟨t, s', h1, h2, h3⟩
      · left
        rw [h1, hcnt, hsp, h3]
        exact ⟨rfl, h2, rfl⟩
      · right
        exact ⟨c :: t, s', by rw [h1]; rfl, by rw [hcnt, h2], by rw [hsp, h3]; rfl⟩

theorem net_loop_run (w : World) (rfd a : Nat) (n : Nat) (s : CStr) (tr : List Event)
    (h : n = 1 + s.count ENV_PATH_TOKEN) :
    ∃ ret evs, populate_ruleset_net_loop w rfd a n (some s) tr = (ret_value ret, tr ++ evs) ∧
      Runs w rfd tr (port_steps a (s.splitOn ENV_PATH_TOKEN)) ret evs := by
  induction n generalizing s tr with
  | zero => omega
  | succ n ih =>
    rcases strsep_spec s with ⟨h1, h2, h3⟩ | ⟨t, s', h1, h2, h3⟩
    · have hn : n = 0 := by omega
      subst hn
      rw [h3]
      cases hr : w.add_rule_net tr rfd (u64_of_int (atoi s)) a with
      | error e =>
        refine ⟨1, _, ?_, .port_fail tr a s _ e hr⟩
        rw [populate_ruleset_net_loop, h1]
        simp only [hr, port_event, ret_value]
        rfl
      | ok u =>
        refine ⟨0, [port_event rfd a s], ?_, .port_ok tr a s _ _ 0 [] hr (.done _)⟩
        rw [populate_ruleset_net_loop, h1]
        simp only [hr, populate_ruleset_net_loop, port_event, ret_value]
        rfl
    · have hn : n = 1 + s'.count ENV_PATH_TOKEN := by omega
      have hne : s'.splitOn ENV_PATH_TOKEN ≠ [] := List.splitOnP_ne_nil _ _
      have hm : (!(s'.splitOn ENV_PATH_TOKEN).isEmpty) = true := by
        simpa [List.isEmpty_iff] using hne
      rw [h3, port_steps, hm]
      cases hr : w.add_rule_net tr rfd (u64_of_int (atoi t)) a with
      | error e =>
        refine ⟨2, _, ?_, .port_abort tr a t _ e hr⟩
        rw [populate_ruleset_net_loop, h1]
        simp only [hr, port_event, ret_value]
        rfl
      | ok u =>
        obtain ⟨ret, evs, hrun, hrr⟩ := ih s' (tr ++ [port_event rfd a t]) hn
        refine ⟨ret, _, ?_, .port_ok tr a t _ _ ret evs hr hrr⟩
        simp only [port_event] at hrun
        rw [populate_ruleset_net_loop, h1]
        simp only [hr, hrun, List.append_assoc, List.singleton_append, port_event]

theorem splitOn_of_count_zero (s : CStr) (h : s.count ENV_PATH_TOKEN = 0) :
    s.splitOn ENV_PATH_TOKEN = [s] := by
  apply List.splitOnP_eq_single
  intro x hx hp
  have : x = ENV_PATH_TOKEN := by simpa using hp
  subst this
  exact absurd h (by
    have := List.count_pos_iff.mpr hx
    omega)

theorem strtok_of_count_zero (s : CStr) (h : s.count ENV_PATH_TOKEN = 0) :
    strtok s = (if s = [] then none else some s, s) := by
  have hall : ∀ c ∈ s, c ≠ ENV_PATH_TOKEN := by
    intro c hc e
    subst e
    have := List.count_pos_iff.mpr hc
    omega
  cases s with
  | nil => simp [strtok]
  | cons c s =>
    have hc : c ≠ ENV_PATH_TOKEN := hall c (List.mem_cons_self _ _)
    have hs : ∀ x ∈ s, (x != ENV_PATH_TOKEN) = true := by
      intro x hx
      simpa using hall x (List.mem_cons_of_mem _ hx)
    have htw : List.takeWhile (fun c => c != ENV_PATH_TOKEN) s = s := by
      rw [List.takeWhile_eq_self_iff]; exact hs
    simp [strtok, hc, htw]

theorem populate_ruleset_fs_run (w : World) (var : String) (rfd a : Nat) (st : State) :
    ∃ ret evs env, populate_ruleset_fs w var rfd a st =
        (some ret, { env := env, trace := st.trace ++ evs }) ∧
      (∀ v, v ≠ var → env v = st.env v) ∧
      (∀ s, st.env var = some s → env = unsetenv var st.env) ∧
      Runs w rfd st.trace (fs_steps st.env var a) ret evs := by
  cases h : st.env var with
  | none =>
    exact ⟨1, [.stderr (.missingEnv var)], st.env, by simp [populate_ruleset_fs, h],
      fun _ _ => rfl, fun _ hs => by simp at hs,
      by simpa [fs_steps, h] using Runs.missing st.trace var []⟩
  | some s =>
    have henv : ∀ v, v ≠ var → unsetenv var st.env v = st.env v := by
      intro v hv; simp [unsetenv, hv]
    obtain ⟨ret, evs, hrun, hr⟩ := fs_loop_run w rfd a (s.splitOn ENV_PATH_TOKEN) st.trace
    simp only [populate_ruleset_fs, h, parse_path_some, hrun, fs_steps]
    by_cases hc : s.count ENV_PATH_TOKEN = 0
    · have hsp := splitOn_of_count_zero s hc
      cases s with
      | nil =>
        exact ⟨0, [], _, by simp [hsp], henv, fun _ _ => rfl, by simpa [entries] using Runs.done st.trace⟩
      | cons c s =>
        refine ⟨ret, evs, _, by simp [hsp, hc], henv, fun _ _ => rfl, ?_⟩
        simpa [entries] using hr
    · have hne : s ≠ [] := by rintro rfl; simp at hc
      refine ⟨ret, evs, _, by simp [hc], henv, fun _ _ => rfl, ?_⟩
      simpa [entries, hne] using hr

theorem populate_ruleset_net_run (w : World) (var : String) (rfd a : Nat) (st : State) :
    ∃ ret evs env, populate_ruleset_net w var rfd a st =
        (ret_value ret, { env := env, trace := st.trace ++ evs }) ∧
      (∀ v, v ≠ var → env v = st.env v) ∧
      (∀ s, st.env var = some s → env = unsetenv var st.env) ∧
      Runs w rfd st.trace (net_steps st.env var a) ret evs := by
  cases h : st.env var with
  | none =>
    exact ⟨0, [], st.env, by simp [populate_ruleset_net, h, ret_value], fun _ _ => rfl,
      fun _ hs => by simp at hs,
      by simpa [net_steps, h, port_steps] using Runs.done st.trace⟩
  | some s =>
    have henv : ∀ v, v ≠ var → unsetenv var st.env v = st.env v := by
      intro v hv; simp [unsetenv, hv]
    obtain ⟨ret, evs, hrun, hr⟩ := net_loop_run w rfd a (1 + s.count ENV_PATH_TOKEN) s
      st.trace rfl
    simp only [populate_ruleset_net, h, parse_port_num, count_tokens_some, net_steps]
    by_cases hc : s.count ENV_PATH_TOKEN = 0
    · rw [strtok_of_count_zero s hc]
      by_cases hs : s = []
      · subst hs
        exact ⟨0, [], _, by simp [ret_value], henv, fun _ _ => rfl,
          by simpa [entries, port_steps] using Runs.done st.trace⟩
      · refine ⟨ret, evs, _, ?_, henv, fun _ _ => rfl, by simpa [entries, hs] using hr⟩
        simp only [hc] at hrun
        simp [hs, hc, hrun]
    · have hne : s ≠ [] := by rintro rfl; simp at hc
      refine ⟨ret, evs, _, by simp [hc, hrun], henv, fun _ _ => rfl, ?_⟩
      simpa [entries, hne] using hr

theorem testBit_land_u64_not (a i k : Nat) (ha : a < 2 ^ 64) :
    (a &&& u64_not (2 ^ k)).testBit i = (a.testBit i && !(2 ^ k).testBit i) := by
  simp only [u64_not, Nat.testBit_land, Nat.testBit_xor, Nat.testBit_two_pow_sub_one,
    Nat.testBit_two_pow]
  by_cases hi : i < 64
  · simp [hi]
  · have : a.testBit i = false := by
      apply Nat.testBit_lt_two_pow
      exact lt_of_lt_of_le ha (Nat.pow_le_pow_right (by decide) (by omega))
    simp [this]

theorem best_effort_ge (abi : Nat) (a : RulesetAttr) (h : 4 ≤ abi) :
    (best_effort abi a).1 = a := by
  obtain _ | _ | _ | _ | _ | n := abi
  all_goals first | omega | simp [best_effort]

theorem best_effort_1 (a : RulesetAttr) :
    (best_effort 1 a).1 = ⟨a.handled_access_fs &&& u64_not LANDLOCK_ACCESS_FS_REFER &&&
      u64_not LANDLOCK_ACCESS_FS_TRUNCATE, 0⟩ := by
  simp [best_effort]

theorem best_effort_2 (a : RulesetAttr) :
    (best_effort 2 a).1 = ⟨a.handled_access_fs &&& u64_not LANDLOCK_ACCESS_FS_TRUNCATE, 0⟩ := by
  simp [best_effort]

theorem best_effort_3 (a : RulesetAttr) :
    (best_effort 3 a).1 = ⟨a.handled_access_fs, 0⟩ := by
  simp [best_effort]

theorem land_lt_of_lt (a b : Nat) (h : a < 2 ^ 64) : a &&& b < 2 ^ 64 :=
  lt_of_le_of_lt Nat.and_le_left h

/-- The bits of the filesystem mask after the switch. -/
theorem best_effort_fs_testBit (fs net L i : Nat) (hfs : fs < 2 ^ 64) (hL : 1 ≤ L) :
    (best_effort L ⟨fs, net⟩).1.handled_access_fs.testBit i =
      (fs.testBit i && !(decide (L < 2) && LANDLOCK_ACCESS_FS_REFER.testBit i)
        && !(decide (L < 3) && LANDLOCK_ACCESS_FS_TRUNCATE.testBit i)) := by
  obtain _ | _ | _ | _ | L := L
  · omega
  · rw [best_effort_1]
    simp only [LANDLOCK_ACCESS_FS_TRUNCATE, LANDLOCK_ACCESS_FS_REFER]
    rw [testBit_land_u64_not _ _ 14 (land_lt_of_lt _ _ hfs),
      testBit_land_u64_not _ _ 13 hfs]
    simp
  · rw [best_effort_2]
    simp only [LANDLOCK_ACCESS_FS_TRUNCATE, LANDLOCK_ACCESS_FS_REFER]
    rw [testBit_land_u64_not _ _ 14 hfs]
    simp
  · rw [best_effort_3]; simp
  · rw [best_effort_ge _ _ (by omega)]
    have h2 : ¬ (L + 1 + 1 + 1 + 1 < 2) := by omega
    have h3 : ¬ (L + 1 + 1 + 1 + 1 < 3) := by omega
    simp [h2, h3]

theorem best_effort_net (fs net L : Nat) (hL : 1 ≤ L) :
    (best_effort L ⟨fs, net⟩).1.handled_access_net = if L < 4 then 0 else net := by
  obtain _ | _ | _ | _ | L := L
  · omega
  · rw [best_effort_1]; simp
  · rw [best_effort_2]; simp
  · rw [best_effort_3]; simp
  · rw [best_effort_ge _ _ (by omega)]
    have h4 : ¬ (L + 1 + 1 + 1 + 1 < 4) := by omega
    simp [h4]

theorem runs_ret {w : World} {rfd : Nat} {tr : List Event} {steps : List Step} {ret : Nat}
    {evs : List Event} (h : Runs w rfd tr steps ret evs) : ret = 0 ∨ ret = 1 ∨ ret = 2 := by
  induction h with
  | done => exact Or.inl rfl
  | path_ok _ _ _ _ _ _ _ _ _ _ _ _ ih => exact ih
  | port_ok _ _ _ _ _ _ _ _ _ ih => exact ih
  | port_abort => exact Or.inr (Or.inr rfl)
  | _ => exact Or.inr (Or.inl rfl)

theorem runs_ret_le {w : World} {rfd : Nat} {tr : List Event} {steps : List Step} {ret : Nat}
    {evs : List Event} (h : Runs w rfd tr steps ret evs)
    (hs : ∀ a tok, Step.port a tok true ∉ steps) : ret = 0 ∨ ret = 1 := by
  induction h with
  | done => exact Or.inl rfl
  | path_ok _ _ _ _ _ _ _ _ _ _ _ _ ih =>
    exact ih (fun a tok hm => hs a tok (List.mem_cons_of_mem _ hm))
  | port_ok _ _ _ _ _ _ _ _ _ ih =>
    exact ih (fun a tok hm => hs a tok (List.mem_cons_of_mem _ hm))
  | port_abort _ a tok => exact absurd (List.mem_cons_self _ _) (hs a tok)
  | _ => exact Or.inr rfl

theorem fs_steps_no_port (env : Env) (var : String) (b : Nat) :
    ∀ a tok, Step.port a tok true ∉ fs_steps env var b := by
  intro a tok
  simp only [fs_steps]
  cases env var <;> simp

theorem runs_append_fail {w : World} {rfd : Nat} {tr : List Event} {A : List Step} {ret : Nat}
    {evs : List Event} (h : Runs w rfd tr A ret evs) (B : List Step) (hr : ret ≠ 0) :
    Runs w rfd tr (A ++ B) ret evs := by
  induction h with
  | done => exact absurd rfl hr
  | missing tr var rest => exact .missing tr var _
  | open_fail tr a p rest e h1 => exact .open_fail tr a p _ e h1
  | fstat_fail tr a p rest fd e h1 h2 => exact .fstat_fail tr a p _ fd e h1 h2
  | path_fail tr a p rest fd d e h1 h2 h3 => exact .path_fail tr a p _ fd d e h1 h2 h3
  | path_ok tr a p rest fd d ret evs h1 h2 h3 _ ih =>
    exact .path_ok tr a p _ fd d ret evs h1 h2 h3 (ih hr)
  | port_fail tr a tok rest e h1 => exact .port_fail tr a tok _ e h1
  | port_abort tr a tok rest e h1 => exact .port_abort tr a tok _ e h1
  | port_ok tr a tok more rest ret evs h1 _ ih =>
    exact .port_ok tr a tok more _ ret evs h1 (ih hr)

theorem runs_append_ok {w : World} {rfd : Nat} {tr : List Event} {A : List Step} {r : Nat}
    {e1 : List Event} (h : Runs w rfd tr A r e1) (hr : r = 0) {B : List Step} {ret : Nat}
    {e2 : List Event} (h' : Runs w rfd (tr ++ e1) B ret e2) :
    Runs w rfd tr (A ++ B) ret (e1 ++ e2) := by
  induction h with
  | done tr => simpa using h'
  | path_ok tr a p rest fd d r evs h1 h2 h3 _ ih =>
    have := ih hr (by simpa [List.append_assoc] using h')
    simpa [List.append_assoc] using Runs.path_ok tr a p _ fd d ret _ h1 h2 h3 this
  | port_ok tr a tok more rest r evs h1 _ ih =>
    have := ih hr (by simpa [List.append_assoc] using h')
    simpa using Runs.port_ok tr a tok more _ ret _ h1 this
  | _ => exact absurd hr (by decide)

theorem fs_steps_congr {env env' : Env} {var : String} (a : Nat) (h : env' var = env var) :
    fs_steps env' var a = fs_steps env var a := by
  simp [fs_steps, h]

theorem net_steps_congr {env env' : Env} {var : String} (a : Nat) (h : env' var = env var) :
    net_steps env' var a = net_steps env var a := by
  simp [net_steps, h]

theorem main_populate_runs (w : World) (argv : List CStr) (rfd aro arw : Nat) (st : State) :
    ∃ ret evs, Runs w rfd st.trace (plan st.env aro arw) ret evs ∧
      main_populate w argv rfd aro arw st =
        (if ret = 0 then main_enforce w argv rfd (st.trace ++ evs)
         else if ret = 1 then (.exit 1, st.trace ++ evs ++ [.close rfd])
         else (.fault, st.trace ++ evs)) := by
  obtain ⟨r1, e1, env1, hp1, henv1, _, hr1⟩ := populate_ruleset_fs_run w ENV_FS_RO_NAME rfd aro st
  rcases runs_ret_le hr1 (fs_steps_no_port _ _ _) with h | h
  swap
  · subst h
    exact ⟨1, e1, runs_append_fail hr1 _ (by decide), by simp [main_populate, hp1]⟩
  subst h
  obtain ⟨r2, e2, env2, hp2, henv2, _, hr2⟩ := populate_ruleset_fs_run w ENV_FS_RW_NAME rfd arw
    { env := env1, trace := st.trace ++ e1 }
  simp only [List.append_assoc] at henv2 hr2 hp2
  rw [fs_steps_congr arw (henv1 _ (by decide))] at hr2
  rcases runs_ret_le hr2 (fs_steps_no_port _ _ _) with h | h
  swap
  · subst h
    exact ⟨1, e1 ++ e2, runs_append_ok hr1 rfl (runs_append_fail hr2 _ (by decide)),
      by simp [main_populate, hp1, hp2]⟩
  subst h
  obtain ⟨r3, e3, env3, hp3, henv3, _, hr3⟩ := populate_ruleset_net_run w ENV_TCP_BIND_NAME rfd
    LANDLOCK_ACCESS_NET_BIND_TCP { env := env2, trace := st.trace ++ e1 ++ e2 }
  simp only [List.append_assoc] at henv3 hr3 hp3
  rw [net_steps_congr _ ((henv2 _ (by decide)).trans (henv1 _ (by decide)))] at hr3
  have hr3' := hr3
  rw [← List.append_assoc] at hr3'
  rcases runs_ret hr3 with h | h | h
  · subst h
    obtain ⟨r4, e4, env4, hp4, henv4, _, hr4⟩ :=
      populate_ruleset_net_run w ENV_TCP_CONNECT_NAME rfd
        LANDLOCK_ACCESS_NET_CONNECT_TCP { env := env3, trace := st.trace ++ e1 ++ e2 ++ e3 }
    simp only [List.append_assoc] at henv4 hr4 hp4
    rw [net_steps_congr _ ((henv3 _ (by decide)).trans
      ((henv2 _ (by decide)).trans (henv1 _ (by decide))))] at hr4
    have hr4' := hr4
    rw [← List.append_assoc, ← List.append_assoc] at hr4'
    have hall : Runs w rfd st.trace (plan st.env aro arw) r4 (e1 ++ (e2 ++ (e3 ++ e4))) :=
      runs_append_ok hr1 rfl (runs_append_ok hr2 rfl (runs_append_ok hr3' rfl hr4'))
    refine ⟨r4, _, hall, ?_⟩
    rcases runs_ret hr4 with h | h | h
    · subst h
      simp [main_populate, hp1, hp2, hp3, hp4, ret_value]
    · subst h
      simp [main_populate, hp1, hp2, hp3, hp4, ret_value]
    · subst h
      simp [main_populate, hp1, hp2, hp3, hp4, ret_value]
  · subst h
    exact ⟨1, e1 ++ (e2 ++ e3), runs_append_ok hr1 rfl (runs_append_ok hr2 rfl
      (runs_append_fail hr3' _ (by decide))), by simp [main_populate, hp1, hp2, hp3, ret_value]⟩
  · subst h
    exact ⟨2, e1 ++ (e2 ++ e3), runs_append_ok hr1 rfl (runs_append_ok hr2 rfl
      (runs_append_fail hr3' _ (by decide))), by simp [main_populate, hp1, hp2, hp3, ret_value]⟩

theorem main_of_short (w : World) (argv : List CStr) (env : Env) (h : argv.length < 2) :
    main w argv env = (.exit 1, [.stderr (.usage argv.head?)]) := by
  simp [main, h]

theorem main_of_query_error (w : World) (argv : List CStr) (env : Env) (h : 2 ≤ argv.length)
    (err : Nat) (hq : w.query_abi = .error err) :
    main w argv env =
      (.exit 1, [.query_abi, .stderr (.perror "Failed to check Landlock compatibility" err)] ++
        (if err = ENOSYS then [.stderr .hintNotSupported]
         else if err = EOPNOTSUPP then [.stderr .hintDisabled] else [])) := by
  have : ¬ argv.length < 2 := by omega
  simp [main, this, hq]

theorem main_of_create_error (w : World) (argv : List CStr) (env : Env) (h : 2 ≤ argv.length)
    (abi : Nat) (hq : w.query_abi = .ok abi) (e : Nat)
    (hc : w.create_ruleset (query_trace env abi) (effective_attr env abi).handled_access_fs
      (effective_attr env abi).handled_access_net = .error e) :
    main w argv env =
      (.exit 1, setup_trace env abi ++ [.stderr (.perror "Failed to create a ruleset" e)]) := by
  have : ¬ argv.length < 2 := by omega
  simp only [query_trace, effective_attr] at hc
  simp [main, this, hq, hc, setup_trace, query_trace, effective_attr]

theorem main_of_create_ok (w : World) (argv : List CStr) (env : Env) (h : 2 ≤ argv.length)
    (abi : Nat) (hq : w.query_abi = .ok abi) (rfd : Nat)
    (hc : w.create_ruleset (query_trace env abi) (effective_attr env abi).handled_access_fs
      (effective_attr env abi).handled_access_net = .ok rfd) :
    main w argv env =
      main_populate w argv rfd (effective_fs_ro env abi) (effective_fs_rw env abi)
        { env := env, trace := setup_trace env abi } := by
  have : ¬ argv.length < 2 := by omega
  simp only [query_trace, effective_attr] at hc
  simp [main, this, hq, hc, setup_trace, query_trace, effective_attr, effective_fs_ro,
    effective_fs_rw]

theorem main_runs (w : World) (argv : List CStr) (env : Env) (h : 2 ≤ argv.length)
    (abi : Nat) (hq : w.query_abi = .ok abi) (rfd : Nat)
    (hc : w.create_ruleset (query_trace env abi) (effective_attr env abi).handled_access_fs
      (effective_attr env abi).handled_access_net = .ok rfd) :
    ∃ ret evs, Runs w rfd (setup_trace env abi)
        (plan env (effective_fs_ro env abi) (effective_fs_rw env abi)) ret evs ∧
      main w argv env =
        (if ret = 0 then main_enforce w argv rfd (setup_trace env abi ++ evs)
         else if ret = 1 then (.exit 1, setup_trace env abi ++ evs ++ [.close rfd])
         else (.fault, setup_trace env abi ++ evs)) := by
  rw [main_of_create_ok w argv env h abi hq rfd hc]
  exact main_populate_runs w argv rfd (effective_fs_ro env abi) (effective_fs_rw env abi)
    { env := env, trace := setup_trace env abi }

theorem eventsAll_append (Q : List Event → Event → Prop) (h a b : List Event) :
    EventsAll Q h (a ++ b) ↔ EventsAll Q h a ∧ EventsAll Q (h ++ a) b := by
  induction a generalizing h with
  | nil => simp [EventsAll]
  | cons x a ih => simp [EventsAll, ih, and_assoc]

theorem eventsAll_split {Q : List Event → Event → Prop} {h evs : List Event}
    (hall : EventsAll Q h evs) (pre : List Event) (e : Event) (post : List Event)
    (hs : evs = pre ++ e :: post) : Q (h ++ pre) e := by
  subst hs
  rw [eventsAll_append] at hall
  exact hall.2.1

theorem eventsAll_of_forall {Q : List Event → Event → Prop} (h evs : List Event)
    (hq : ∀ e ∈ evs, ∀ h, Q h e) : EventsAll Q h evs := by
  induction evs generalizing h with
  | nil => trivial
  | cons x evs ih =>
    exact ⟨hq x (List.mem_cons_self _ _) h,
      ih _ (fun e he => hq e (List.mem_cons_of_mem _ he))⟩

theorem quiet_not_fails (w : World) (h : List Event) (e : Event) (hq : quiet e = true) :
    step_fails w h e = false := by
  cases e with
  | stderr m => cases m <;> simp_all [quiet, step_fails]
  | _ => simp_all [quiet, step_fails]

/-- The failing step of a trace is unique: the steps before it do not fail, and
the events after it are quiet. -/
theorem failing_step_unique (w : World) (h pre : List Event) (e : Event) (post : List Event)
    (hpre : Clean w h pre) (hpost : ∀ x ∈ post, quiet x = true)
    (pre' : List Event) (e' : Event) (post' : List Event)
    (heq : pre ++ e :: post = pre' ++ e' :: post')
    (hf : step_fails w (h ++ pre') e' = true) :
    pre' = pre ∧ e' = e ∧ post' = post := by
  induction pre generalizing h pre' with
  | nil =>
    cases pre' with
    | nil => simp at heq; exact ⟨rfl, heq.1.symm, heq.2.symm⟩
    | cons a p =>
      simp only [List.nil_append, List.cons_append, List.cons.injEq] at heq
      have hmem : e' ∈ post := by rw [heq.2]; simp
      have := quiet_not_fails w (h ++ a :: p) e' (hpost e' hmem)
      rw [this] at hf
      exact absurd hf (by decide)
  | cons a p ih =>
    cases pre' with
    | nil =>
      simp only [List.nil_append, List.cons_append, List.cons.injEq] at heq
      have := hpre.1
      rw [heq.1] at this
      simp only [List.append_nil] at hf
      rw [this] at hf
      exact absurd hf (by decide)
    | cons a' p' =>
      simp only [List.cons_append, List.cons.injEq] at heq
      obtain ⟨ha, hrest⟩ := heq
      subst ha
      have := ih (h ++ [a]) hpre.2 p' hrest (by simpa using hf)
      exact ⟨by rw [this.1], this.2⟩

theorem runs_kind {w : World} {rfd : Nat} {tr : List Event} {steps : List Step} {ret : Nat}
    {evs : List Event} (h : Runs w rfd tr steps ret evs) :
    ∀ x ∈ evs, populate_kind x = true := by
  induction h with
  | path_ok tr a p rest fd d ret evs h1 h2 h3 _ ih =>
    intro x hx
    rcases List.mem_append.mp hx with hx | hx
    · have hb : ∀ y ∈ path_block rfd a p fd d, populate_kind y = true := by
        simp [path_block, populate_kind]
      exact hb x hx
    · exact ih x hx
  | port_ok tr a tok more rest ret evs h1 _ ih =>
    intro x hx
    rcases List.mem_cons.mp hx with rfl | hx
    · rfl
    · exact ih x hx
  | _ => simp [populate_kind, port_event]

theorem runs_clean {w : World} {rfd : Nat} {tr : List Event} {steps : List Step} {ret : Nat}
    {evs : List Event} (h : Runs w rfd tr steps ret evs) :
    (ret = 0 → Clean w tr evs) ∧
    (ret = 1 → ∃ pre e post, evs = pre ++ e :: post ∧ Clean w tr pre ∧
      step_fails w (tr ++ pre) e = true ∧ ∀ x ∈ post, quiet x = true) := by
  induction h with
  | done tr => exact ⟨fun _ => trivial, fun h => absurd h (by decide)⟩
  | missing tr var rest =>
    exact ⟨fun h => absurd h (by decide), fun _ => ⟨[], _, [], rfl, trivial, rfl, by simp⟩⟩
  | open_fail tr a p rest e h1 =>
    refine ⟨fun h => absurd h (by decide), fun _ => ⟨[], _, _, rfl, trivial, ?_, ?_⟩⟩
    · simp [step_fails, h1, Except.toBool]
    · simp [quiet]
  | fstat_fail tr a p rest fd e h1 h2 =>
    refine ⟨fun h => absurd h (by decide),
      fun _ => ⟨[.open_path p], .fstat fd, [.close fd], rfl, ?_, ?_, ?_⟩⟩
    · simp [Clean, EventsAll, step_fails, h1, Except.toBool]
    · simp [step_fails, h2, Except.toBool]
    · simp [quiet]
  | path_fail tr a p rest fd d e h1 h2 h3 =>
    refine ⟨fun h => absurd h (by decide),
      fun _ => ⟨[.open_path p, .fstat fd], _, _, rfl, ?_, ?_, ?_⟩⟩
    · simp [Clean, EventsAll, step_fails, h1, h2, Except.toBool]
    · simp [step_fails, h3, Except.toBool]
    · simp [quiet]
  | path_ok tr a p rest fd d ret evs h1 h2 h3 _ ih =>
    have hb : Clean w tr (path_block rfd a p fd d) := by
      simp [Clean, EventsAll, path_block, step_fails, h1, h2, h3, Except.toBool]
    refine ⟨fun h => (eventsAll_append _ _ _ _).mpr ⟨hb, ih.1 h⟩, fun h => ?_⟩
    obtain ⟨pre, e, post, rfl, hc, hf, hq⟩ := ih.2 h
    exact ⟨path_block rfd a p fd d ++ pre, e, post, by simp,
      (eventsAll_append _ _ _ _).mpr ⟨hb, hc⟩, by simpa [List.append_assoc] using hf, hq⟩
  | port_fail tr a tok rest e h1 =>
    refine ⟨fun h => absurd h (by decide), fun _ => ⟨[], _, _, rfl, trivial, ?_, ?_⟩⟩
    · simp [step_fails, port_event, h1, Except.toBool]
    · simp [quiet]
  | port_abort tr a tok rest e h1 =>
    exact ⟨fun h => absurd h (by decide), fun h => absurd h (by decide)⟩
  | port_ok tr a tok more rest ret evs h1 _ ih =>
    have hb : Clean w tr [port_event rfd a tok] := by
      simp [Clean, EventsAll, port_event, step_fails, h1, Except.toBool]
    refine ⟨fun h => (eventsAll_append _ _ [_] _).mpr ⟨hb, ih.1 h⟩, fun h => ?_⟩
    obtain ⟨pre, e, post, rfl, hc, hf, hq⟩ := ih.2 h
    exact ⟨port_event rfd a tok :: pre, e, post, by simp,
      (eventsAll_append _ _ [_] _).mpr ⟨hb, hc⟩, by simpa [List.append_assoc] using hf, hq⟩

/-- The ways in which lines 374 to 395 of `main` end. -/
theorem main_enforce_cases (w : World) (argv : List CStr) (rfd : Nat) (tr : List Event)
    (h : 2 ≤ argv.length) :
    (∃ e, w.no_new_privs tr = .error e ∧
        main_enforce w argv rfd tr = (.exit 1, tr ++ [.no_new_privs,
          .stderr (.perror "Failed to restrict privileges" e), .close rfd])) ∨
    (w.no_new_privs tr = .ok () ∧
        ∃ e, w.restrict_self (tr ++ [.no_new_privs]) rfd = .error e ∧
        main_enforce w argv rfd tr = (.exit 1, tr ++ [.no_new_privs,
          .restrict_self rfd, .stderr (.perror "Failed to enforce ruleset" e), .close rfd])) ∨
    (w.no_new_privs tr = .ok () ∧ w.restrict_self (tr ++ [.no_new_privs]) rfd = .ok () ∧
        ∃ a0 cmd args, argv = a0 :: cmd :: args ∧
          w.execvpe (tr ++ [.no_new_privs, .restrict_self rfd, .close rfd]) cmd (cmd :: args)
            = none ∧
          main_enforce w argv rfd tr = (.execed, tr ++ [.no_new_privs,
            .restrict_self rfd, .close rfd, .execvpe cmd (cmd :: args)])) ∨
    (w.no_new_privs tr = .ok () ∧ w.restrict_self (tr ++ [.no_new_privs]) rfd = .ok () ∧
        ∃ a0 cmd args e, argv = a0 :: cmd :: args ∧
          w.execvpe (tr ++ [.no_new_privs, .restrict_self rfd, .close rfd]) cmd (cmd :: args)
            = some e ∧
          main_enforce w argv rfd tr = (.exit 1, tr ++ [.no_new_privs,
            .restrict_self rfd, .close rfd, .execvpe cmd (cmd :: args),
            .stderr (.failedExecute cmd e), .stderr .hintExecDenied])) := by
  cases hn : w.no_new_privs tr with
  | error e => exact Or.inl ⟨e, rfl, by simp only [main_enforce, hn]⟩
  | ok u =>
    right
    cases hs : w.restrict_self (tr ++ [.no_new_privs]) rfd with
    | error e => exact Or.inl ⟨rfl, e, rfl, by simp only [main_enforce, hn, hs]⟩
    | ok u' =>
      right
      match argv, h with
      | a0 :: cmd :: args, _ =>
        cases hx : w.execvpe (tr ++ [.no_new_privs, .restrict_self rfd, .close rfd])
            cmd (cmd :: args) with
        | none =>
          exact Or.inl ⟨rfl, rfl, a0, cmd, args, rfl, hx, by simp only [main_enforce, hn, hs, hx]⟩
        | some e =>
          exact Or.inr ⟨rfl, rfl, a0, cmd, args, e, rfl, hx,
            by simp only [main_enforce, hn, hs, hx]⟩

/-- The ways in which `main` ends once the ruleset is created. -/
theorem main_cases (w : World) (argv : List CStr) (env : Env) (h : 2 ≤ argv.length)
    (abi : Nat) (hq : w.query_abi = .ok abi) (rfd : Nat)
    (hc : w.create_ruleset (query_trace env abi) (effective_attr env abi).handled_access_fs
      (effective_attr env abi).handled_access_net = .ok rfd) :
    ∃ ret evs, Runs w rfd (setup_trace env abi)
        (plan env (effective_fs_ro env abi) (effective_fs_rw env abi)) ret evs ∧
      ((ret = 1 ∧ main w argv env = (.exit 1, setup_trace env abi ++ evs ++ [.close rfd])) ∨
       (ret = 0 ∧ main w argv env = main_enforce w argv rfd (setup_trace env abi ++ evs)) ∨
       (ret = 2 ∧ main w argv env = (.fault, setup_trace env abi ++ evs))) := by
  obtain ⟨ret, evs, hr, hm⟩ := main_runs w argv env h abi hq rfd hc
  refine ⟨ret, evs, hr, ?_⟩
  rcases runs_ret hr with h0 | h1 | h2
  · subst h0
    exact Or.inr (Or.inl ⟨rfl, by simpa using hm⟩)
  · subst h1
    exact Or.inl ⟨rfl, by simpa using hm⟩
  · subst h2
    exact Or.inr (Or.inr ⟨rfl, by simpa using hm⟩)

theorem best_effort_hints (abi : Nat) (a : RulesetAttr) :
    ∀ m ∈ (best_effort abi a).2,
      m = .hintUpdateKernel LANDLOCK_ABI_LAST abi ∨
      m = .hintUpdateSandboxer abi LANDLOCK_ABI_LAST := by
  obtain _ | _ | _ | _ | _ | n := abi <;> simp [best_effort]

theorem mem_query_trace (env : Env) (abi : Nat) (x : Event) (h : x ∈ query_trace env abi) :
    x = .query_abi ∨ x = .stderr (.hintUpdateKernel LANDLOCK_ABI_LAST abi) ∨
      x = .stderr (.hintUpdateSandboxer abi LANDLOCK_ABI_LAST) := by
  simp only [query_trace, List.mem_cons, List.mem_map] at h
  rcases h with rfl | ⟨m, hm, rfl⟩
  · exact Or.inl rfl
  · rcases best_effort_hints abi _ m hm with rfl | rfl
    · exact Or.inr (Or.inl rfl)
    · exact Or.inr (Or.inr rfl)

theorem populate_kind_after_create (x : Event) (h : populate_kind x = true) :
    after_create_kind x = true := by
  cases x <;> simp_all [populate_kind, after_create_kind]

/-- After the creation of the ruleset, `main` neither queries the ABI version
nor creates a ruleset. -/
theorem main_after_setup (w : World) (argv : List CStr) (env : Env) (h : 2 ≤ argv.length)
    (abi : Nat) (hq : w.query_abi = .ok abi) :
    ∃ rest, (main w argv env).2 = setup_trace env abi ++ rest ∧
      ∀ x ∈ rest, after_create_kind x = true := by
  cases hc : w.create_ruleset (query_trace env abi) (effective_attr env abi).handled_access_fs
      (effective_attr env abi).handled_access_net with
  | error e =>
    rw [main_of_create_error w argv env h abi hq e hc]
    exact ⟨_, rfl, by simp [after_create_kind]⟩
  | ok rfd =>
    obtain ⟨ret, evs, hr, hm⟩ := main_cases w argv env h abi hq rfd hc
    have hk := runs_kind hr
    rcases hm with ⟨_, hm⟩ | ⟨_, hm⟩ | ⟨_, hm⟩
    · rw [hm]
      refine ⟨evs ++ [.close rfd], by simp, ?_⟩
      intro x hx
      rcases List.mem_append.mp hx with hx | hx
      · exact populate_kind_after_create x (hk x hx)
      · simp only [List.mem_singleton] at hx; subst hx; rfl
    swap
    · rw [hm]
      exact ⟨evs, rfl, fun x hx => populate_kind_after_create x (hk x hx)⟩
    · rw [hm]
      rcases main_enforce_cases w argv rfd (setup_trace env abi ++ evs) h with
        ⟨e, _, he⟩ | ⟨_, e, _, he⟩ | ⟨_, _, a0, cmd, args, _, _, he⟩ |
        ⟨_, _, a0, cmd, args, e, _, _, he⟩
      all_goals
        rw [he]
        refine ⟨evs ++ _, by simp only [List.append_assoc]; rfl, ?_⟩
        intro x hx
        rcases List.mem_append.mp hx with hx | hx
        · exact populate_kind_after_create x (hk x hx)
        · exact List.all_eq_true.mp (by rfl) x hx

theorem split_unique (P : Event → Bool) (l1 : List Event) (a : Event) (l2 : List Event)
    (l1' : List Event) (a' : Event) (l2' : List Event)
    (heq : l1 ++ a :: l2 = l1' ++ a' :: l2') (ha' : P a' = true)
    (h1 : ∀ x ∈ l1, P x = false) (h2 : ∀ x ∈ l2, P x = false) :
    l1' = l1 ∧ a' = a ∧ l2' = l2 := by
  induction l1 generalizing l1' with
  | nil =>
    cases l1' with
    | nil => simp at heq; exact ⟨rfl, heq.1.symm, heq.2.symm⟩
    | cons b p =>
      simp only [List.nil_append, List.cons_append, List.cons.injEq] at heq
      have hmem : a' ∈ l2 := by rw [heq.2]; simp
      rw [h2 a' hmem] at ha'
      exact absurd ha' (by decide)
  | cons b p ih =>
    cases l1' with
    | nil =>
      simp only [List.nil_append, List.cons_append, List.cons.injEq] at heq
      have := h1 b (List.mem_cons_self _ _)
      rw [heq.1, ha'] at this
      exact absurd this (by decide)
    | cons b' p' =>
      simp only [List.cons_append, List.cons.injEq] at heq
      obtain ⟨hb, hrest⟩ := heq
      subst hb
      have := ih p' hrest (fun x hx => h1 x (List.mem_cons_of_mem _ hx))
      exact ⟨by rw [this.1], this.2⟩

/-- The only call that creates a ruleset in a trace of `main` is the call of
line 355: it follows the query of the ABI version and the hint, and it carries
the masks left by the switch. -/
theorem main_create_unique (w : World) (argv : List CStr) (env : Env)
    (pre : List Event) (fs net : Nat) (post : List Event)
    (hs : (main w argv env).2 = pre ++ .create_ruleset fs net :: post) :
    2 ≤ argv.length ∧ ∃ abi, w.query_abi = .ok abi ∧ pre = query_trace env abi ∧
      fs = (effective_attr env abi).handled_access_fs ∧
      net = (effective_attr env abi).handled_access_net := by
  have hmem : Event.create_ruleset fs net ∈ (main w argv env).2 := by rw [hs]; simp
  by_cases h : 2 ≤ argv.length
  swap
  · rw [main_of_short w argv env (by omega)] at hmem
    simp at hmem
  refine ⟨h, ?_⟩
  cases hq : w.query_abi with
  | error err =>
    rw [main_of_query_error w argv env h err hq] at hmem
    simp only [List.mem_append, List.mem_cons, List.mem_singleton, List.not_mem_nil,
      or_false, reduceCtorEq, false_or] at hmem
    split_ifs at hmem <;> simp at hmem
  | ok abi =>
    obtain ⟨rest, hrest, hk⟩ := main_after_setup w argv env h abi hq
    rw [hrest, setup_trace, List.append_assoc, List.singleton_append] at hs
    have := split_unique (fun x => !after_create_kind x && x != .query_abi) _ _ _ _ _ _ hs
      (by simp [after_create_kind])
      (by
        intro x hx
        rcases mem_query_trace env abi x hx with rfl | rfl | rfl <;> simp [after_create_kind])
      (by intro x hx; simp [hk x hx])
    refine ⟨abi, rfl, this.1, ?_⟩
    have h2 := this.2.1
    simp only [Event.create_ruleset.injEq] at h2
    exact h2

theorem main_create_mem (w : World) (argv : List CStr) (env : Env) (h : 2 ≤ argv.length)
    (abi : Nat) (hq : w.query_abi = .ok abi) :
    Event.create_ruleset (effective_attr env abi).handled_access_fs
      (effective_attr env abi).handled_access_net ∈ (main w argv env).2 := by
  obtain ⟨rest, hrest, _⟩ := main_after_setup w argv env h abi hq
  rw [hrest]
  simp [setup_trace]

/-- A step list that starts with path steps followed by the report of a missing
variable ends with 1. -/
theorem runs_paths_missing {w : World} {rfd : Nat} (b : Nat) (paths : List CStr) (v : String)
    (rest : List Step) (tr : List Event) (ret : Nat) (evs : List Event)
    (h : Runs w rfd tr (paths.map (.path b) ++ .missing v :: rest) ret evs) : ret = 1 := by
  induction paths generalizing tr evs with
  | nil =>
    cases h
    rfl
  | cons p ps ih =>
    cases h with
    | open_fail => rfl
    | fstat_fail => rfl
    | path_fail => rfl
    | path_ok _ _ _ _ _ _ _ evs' h1 h2 h3 h4 => exact ih _ _ h4

theorem populate_kind_not_enforce (x : Event) (h : populate_kind x = true) :
    enforce_kind x = false := by
  cases x <;> simp_all [populate_kind, enforce_kind]

theorem setup_trace_not_enforce (env : Env) (abi : Nat) :
    ∀ x ∈ setup_trace env abi, enforce_kind x = false := by
  intro x hx
  simp only [setup_trace, List.mem_append, List.mem_singleton] at hx
  rcases hx with hx | rfl
  · rcases mem_query_trace env abi x hx with rfl | rfl | rfl <;> rfl
  · rfl

theorem runs_plan_missing {w : World} {rfd : Nat} {tr : List Event} {ret : Nat}
    {evs : List Event} (env : Env) (aro arw : Nat) (v : String)
    (hv : v = ENV_FS_RO_NAME ∨ v = ENV_FS_RW_NAME) (hmiss : env v = none)
    (hr : Runs w rfd tr (plan env aro arw) ret evs) : ret = 1 := by
  rcases hv with rfl | rfl
  · simp only [plan, fs_steps, hmiss, List.singleton_append] at hr
    cases hr
    rfl
  · cases hro : env ENV_FS_RO_NAME with
    | none =>
      simp only [plan, fs_steps, hro, List.singleton_append] at hr
      cases hr
      rfl
    | some s =>
      simp only [plan, fs_steps, hro, hmiss, List.singleton_append] at hr
      exact runs_paths_missing _ _ _ _ _ _ _ hr

/-- When a mandatory variable is missing, `main` returns 1 and the enforcement
is not reached. -/
theorem main_of_missing (w : World) (argv : List CStr) (env : Env) (v : String)
    (hv : v = ENV_FS_RO_NAME ∨ v = ENV_FS_RW_NAME) (hmiss : env v = none) :
    (main w argv env).1 = .exit 1 ∧ ∀ x ∈ (main w argv env).2, enforce_kind x = false := by
  by_cases h : 2 ≤ argv.length
  swap
  · rw [main_of_short w argv env (by omega)]
    exact ⟨rfl, by simp [enforce_kind]⟩
  cases hq : w.query_abi with
  | error err =>
    rw [main_of_query_error w argv env h err hq]
    refine ⟨rfl, ?_⟩
    split_ifs <;> simp [enforce_kind]
  | ok abi =>
    cases hc : w.create_ruleset (query_trace env abi)
        (effective_attr env abi).handled_access_fs
        (effective_attr env abi).handled_access_net with
    | error e =>
      rw [main_of_create_error w argv env h abi hq e hc]
      refine ⟨rfl, ?_⟩
      intro x hx
      rcases List.mem_append.mp hx with hx | hx
      · exact setup_trace_not_enforce env abi x hx
      · simp only [List.mem_singleton] at hx
        subst hx
        rfl
    | ok rfd =>
      obtain ⟨ret, evs, hr, hm⟩ := main_cases w argv env h abi hq rfd hc
      have h1 := runs_plan_missing env _ _ v hv hmiss hr
      rcases hm with ⟨_, hm⟩ | ⟨h0, _⟩ | ⟨h0, _⟩
      swap
      · omega
      swap
      · omega
      rw [hm]
      refine ⟨rfl, ?_⟩
      intro x hx
      simp only [List.mem_append, List.mem_singleton] at hx
      rcases hx with (hx | hx) | rfl
      · exact setup_trace_not_enforce env abi x hx
      · exact populate_kind_not_enforce x (runs_kind hr x hx)
      · rfl

theorem runs_ports_ok {w : World} {rfd a : Nat}
    (hok : ∀ tr fd port m, w.add_rule_net tr fd port m = .ok ())
    (toks : List CStr) (tr : List Event) (ret : Nat) (evs : List Event)
    (h : Runs w rfd tr (port_steps a toks) ret evs) :
    ret = 0 ∧ evs = toks.map (port_event rfd a) := by
  induction toks generalizing tr evs with
  | nil =>
    cases h
    exact ⟨rfl, rfl⟩
  | cons t ts ih =>
    rw [port_steps] at h
    generalize (!ts.isEmpty) = m at h
    cases h with
    | port_fail _ _ _ _ e h1 =>
      rw [hok] at h1
      cases h1
    | port_abort _ _ _ _ e h1 =>
      rw [hok] at h1
      cases h1
    | port_ok _ _ _ _ _ _ evs' h1 h2 =>
      obtain ⟨hr, he⟩ := ih _ _ h2
      exact ⟨hr, by simp [he]⟩

theorem atoi_bounds (tok : CStr) : -(2 : Int) ^ 31 ≤ atoi tok ∧ atoi tok < 2 ^ 31 := by
  simp only [atoi]
  constructor <;> omega

/-- The function `atoi` skips leading white space and one sign, and stops at the
first character that is not a digit; a value that does not fit an `int` is
saturated to `long` and then cut to its low 32 bits. -/
theorem atoi_examples :
    atoi " \t\n\r 80".toList = 80 ∧
    atoi [Char.ofNat 11, Char.ofNat 12, '7'] = 7 ∧
    atoi "+80".toList = 80 ∧
    atoi "-80".toList = -80 ∧
    atoi "+-80".toList = 0 ∧
    atoi "80abc".toList = 80 ∧
    atoi "8 0".toList = 8 ∧
    atoi "0x10".toList = 0 ∧
    atoi "2147483647".toList = 2147483647 ∧
    atoi "2147483648".toList = -2147483648 ∧
    atoi "4294967376".toList = 80 ∧
    atoi "-2147483649".toList = 2147483647 ∧
    atoi "9223372036854775807".toList = -1 ∧
    atoi "9223372036854775808".toList = -1 ∧
    atoi "18446744073709551696".toList = -1 ∧
    atoi "-9223372036854775809".toList = 0 ∧
    u64_of_int (-80) = 18446744073709551536 ∧
    u64_of_int 65536 = 65536 := by
  decide

/-- The first call of `strtok` skips leading colons and cuts the buffer at the
colon that ends the token. -/
theorem strtok_examples :
    strtok "".toList = (none, "".toList) ∧
    strtok "::".toList = (none, "::".toList) ∧
    strtok "80".toList = (some "80".toList, "80".toList) ∧
    strtok "80:443".toList = (some "80".toList, "80".toList) ∧
    strtok ":80:443".toList = (some "80".toList, ":80".toList) := by
  decide

theorem atoi_of_no_number (tok : CStr)
    (h : tok = [] ∨ ∃ c rest, tok = c :: rest ∧ c.isDigit = false ∧ isspace c = false ∧
      c ≠ '+' ∧ c ≠ '-') : atoi tok = 0 := by
  rcases h with rfl | ⟨c, rest, rfl, hd, hsp, hp, hm⟩
  · decide
  · have h1 : (some c == some '-') = false := by simpa using hm
    have h2 : (some c == some '+') = false := by simpa using hp
    simp [atoi, List.dropWhile_cons, hsp, List.head?, h1, h2, List.takeWhile_cons, hd]

theorem u64_of_int_atoi (tok : CStr) :
    (u64_of_int (atoi tok) : Int) = if 0 ≤ atoi tok then atoi tok else atoi tok + 2 ^ 64 := by
  obtain ⟨h1, h2⟩ := atoi_bounds tok
  generalize atoi tok = i at h1 h2
  simp only [u64_of_int]
  rw [Int.toNat_of_nonneg (Int.emod_nonneg _ (by decide))]
  split_ifs with h <;> omega

theorem digit_char_facts : ∀ d < 10, (Char.ofNat (48 + d)).isDigit = true ∧
    isspace (Char.ofNat (48 + d)) = false ∧ Char.ofNat (48 + d) ≠ '-' ∧
    Char.ofNat (48 + d) ≠ '+' ∧ (Char.ofNat (48 + d)).toNat - 48 = d := by
  decide

theorem foldl_digits (ds : List Nat) (hd : ∀ d ∈ ds, d < 10) (a : Nat) :
    (ds.map (fun d => Char.ofNat (48 + d))).foldl (fun a c => 10 * a + (c.toNat - 48)) a =
      a * 10 ^ ds.length + Nat.ofDigits 10 ds.reverse := by
  induction ds generalizing a with
  | nil => simp
  | cons d ds ih =>
    have h1 := (digit_char_facts d (hd d (List.mem_cons_self _ _))).2.2.2.2
    simp only [List.map_cons, List.foldl_cons, h1]
    rw [ih (fun x hx => hd x (List.mem_cons_of_mem _ hx))]
    simp only [List.reverse_cons, Nat.ofDigits_append, Nat.ofDigits_singleton, List.length_reverse,
      List.length_cons]
    ring

theorem atoi_of_digits (ds : List Nat) (hd : ∀ d ∈ ds, d < 10)
    (hv : Nat.ofDigits 10 ds.reverse < 2 ^ 31) :
    atoi (ds.map (fun d => Char.ofNat (48 + d))) = ((Nat.ofDigits 10 ds.reverse : Nat) : Int) := by
  have hsp : (ds.map (fun d => Char.ofNat (48 + d))).dropWhile isspace =
      ds.map (fun d => Char.ofNat (48 + d)) := by
    cases ds with
    | nil => rfl
    | cons d ds =>
      simp [List.dropWhile_cons, (digit_char_facts d (hd d (List.mem_cons_self _ _))).2.1]
  have hm : ((ds.map (fun d => Char.ofNat (48 + d))).head? == some '-') = false := by
    cases ds with
    | nil => rfl
    | cons d ds =>
      simpa using (digit_char_facts d (hd d (List.mem_cons_self _ _))).2.2.1
  have hp : ((ds.map (fun d => Char.ofNat (48 + d))).head? == some '+') = false := by
    cases ds with
    | nil => rfl
    | cons d ds =>
      simpa using (digit_char_facts d (hd d (List.mem_cons_self _ _))).2.2.2.1
  have htw : (ds.map (fun d => Char.ofNat (48 + d))).takeWhile Char.isDigit =
      ds.map (fun d => Char.ofNat (48 + d)) := by
    rw [List.takeWhile_eq_self_iff]
    intro c hc
    obtain ⟨d, hdm, rfl⟩ := List.mem_map.mp hc
    exact (digit_char_facts d (hd d hdm)).1
  have hf := foldl_digits ds hd 0
  simp only [Nat.zero_mul, Nat.zero_add] at hf
  simp only [atoi, hsp, hm, hp, Bool.false_or, Bool.false_eq_true, if_false, htw, hf]
  generalize Nat.ofDigits 10 ds.reverse = v at hv
  omega

theorem populate_kind_not_late (x : Event) (h : populate_kind x = true) :
    late_kind x = false := by
  cases x <;> simp_all [populate_kind, late_kind]

theorem setup_trace_clean (w : World) (env : Env) (abi : Nat) :
    Clean w [] (setup_trace env abi) := by
  apply eventsAll_of_forall
  intro x hx h
  simp only [setup_trace, List.mem_append, List.mem_singleton] at hx
  rcases hx with hx | rfl
  · rcases mem_query_trace env abi x hx with rfl | rfl | rfl <;> rfl
  · rfl

theorem setup_trace_not_late (env : Env) (abi : Nat) :
    ∀ x ∈ setup_trace env abi, late_kind x = false := by
  intro x hx
  simp only [setup_trace, List.mem_append, List.mem_singleton] at hx
  rcases hx with hx | rfl
  · rcases mem_query_trace env abi x hx with rfl | rfl | rfl <;> rfl
  · rfl

theorem setup_trace_no_close (env : Env) (abi : Nat) (fd : Nat) :
    Event.close fd ∉ setup_trace env abi := by
  intro hx
  simp only [setup_trace, List.mem_append, List.mem_singleton] at hx
  rcases hx with hx | hx
  · rcases mem_query_trace env abi _ hx with h | h | h <;> cases h
  · cases hx

theorem runs_no_close {w : World} {rfd : Nat} {tr : List Event} {steps : List Step} {ret : Nat}
    {evs : List Event} (h : Runs w rfd tr steps ret evs)
    (hfresh : ∀ tr p, w.open_path tr p ≠ .ok rfd) : Event.close rfd ∉ evs := by
  induction h with
  | done => simp
  | missing => simp
  | open_fail => simp
  | fstat_fail tr a p rest fd e h1 h2 =>
    have : fd ≠ rfd := by rintro rfl; exact hfresh _ _ h1
    simp [this.symm]
  | path_fail tr a p rest fd d e h1 h2 h3 =>
    have : fd ≠ rfd := by rintro rfl; exact hfresh _ _ h1
    simp [this.symm]
  | path_ok tr a p rest fd d ret evs h1 h2 h3 _ ih =>
    have : fd ≠ rfd := by rintro rfl; exact hfresh _ _ h1
    simp [path_block, this.symm, ih]
  | port_fail => simp [port_event]
  | port_abort => simp [port_event]
  | port_ok tr a tok more rest ret evs h1 _ ih => simp [port_event, ih]

/-- A run of `main` in which the ruleset is created either has no failing step
in its trace, or has the shape of a failure: steps that do not fail and are not
calls of `landlock_restrict_self` or `execvpe`, the failing step, and then only
messages and calls of `close`, and in that case `main` returns 1; or it ends in
the undefined behaviour of line 200. -/
theorem main_clean_or_failed (w : World) (argv : List CStr) (env : Env) (h : 2 ≤ argv.length)
    (abi : Nat) (hq : w.query_abi = .ok abi) (rfd : Nat)
    (hc : w.create_ruleset (query_trace env abi) (effective_attr env abi).handled_access_fs
      (effective_attr env abi).handled_access_net = .ok rfd) :
    Clean w [] (main w argv env).2 ∨
    ((main w argv env).1 = .exit 1 ∧ ∃ p f q, (main w argv env).2 = p ++ f :: q ∧
      Clean w [] p ∧ step_fails w p f = true ∧ (∀ x ∈ q, quiet x = true) ∧
      (∀ x ∈ p, late_kind x = false)) ∨
    (main w argv env).1 = .fault := by
  obtain ⟨ret, evs, hr, hm⟩ := main_cases w argv env h abi hq rfd hc
  have hsetup := setup_trace_clean w env abi
  have hcl := runs_clean hr
  have hk := runs_kind hr
  have hpre : ∀ x ∈ setup_trace env abi ++ evs, late_kind x = false := by
    intro x hx
    rcases List.mem_append.mp hx with hx | hx
    · exact setup_trace_not_late env abi x hx
    · exact populate_kind_not_late x (hk x hx)
  rcases hm with ⟨h1, hm⟩ | ⟨h0, hm⟩ | ⟨_, hm⟩
  · right
    left
    obtain ⟨p, f, q, rfl, hp, hf, hq'⟩ := hcl.2 h1
    rw [hm]
    refine ⟨rfl, setup_trace env abi ++ p, f, q ++ [.close rfd], by simp, ?_, ?_, ?_, ?_⟩
    · exact (eventsAll_append _ _ _ _).mpr ⟨hsetup, by simpa using hp⟩
    · simpa using hf
    · intro x hx
      rcases List.mem_append.mp hx with hx | hx
      · exact hq' x hx
      · simp only [List.mem_singleton] at hx; subst hx; rfl
    · intro x hx
      apply hpre x
      rcases List.mem_append.mp hx with hx | hx
      · exact List.mem_append_left _ hx
      · exact List.mem_append_right _ (List.mem_append_left _ hx)
  swap
  · right
    right
    rw [hm]
  · have hclean : Clean w [] (setup_trace env abi ++ evs) :=
      (eventsAll_append _ _ _ _).mpr ⟨hsetup, by simpa using hcl.1 h0⟩
    rw [hm]
    rcases main_enforce_cases w argv rfd (setup_trace env abi ++ evs) h with
      ⟨e, hn, he⟩ | ⟨hn, e, hs, he⟩ | ⟨hn, hs, a0, cmd, args, _, hx, he⟩ |
      ⟨hn, hs, a0, cmd, args, e, _, hx, he⟩
    · right
      left
      rw [he]
      refine ⟨rfl, setup_trace env abi ++ evs, .no_new_privs, _, rfl, hclean, ?_, ?_, hpre⟩
      · simp [step_fails, hn, Except.toBool]
      · simp [quiet]
    · right
      left
      rw [he]
      refine ⟨rfl, setup_trace env abi ++ evs ++ [.no_new_privs], .restrict_self rfd,
        [.stderr (.perror "Failed to enforce ruleset" e), .close rfd], by simp, ?_, ?_, ?_, ?_⟩
      · refine (eventsAll_append _ _ _ _).mpr ⟨hclean, ?_⟩
        simp [EventsAll, step_fails, hn, Except.toBool]
      · simp only [List.append_assoc] at hs
        simp [step_fails, hs, Except.toBool]
      · simp [quiet]
      · intro x hx
        rcases List.mem_append.mp hx with hx | hx
        · exact hpre x hx
        · simp only [List.mem_singleton] at hx; subst hx; rfl
    · left
      rw [he]
      refine (eventsAll_append _ _ _ _).mpr ⟨hclean, ?_⟩
      simp only [List.append_assoc] at hs
      simp [EventsAll, step_fails, hn, hs, Except.toBool]
    · left
      rw [he]
      refine (eventsAll_append _ _ _ _).mpr ⟨hclean, ?_⟩
      simp only [List.append_assoc] at hs
      simp [EventsAll, step_fails, hn, hs, Except.toBool]

/-- Once the ruleset is created, `main` closes its descriptor exactly once,
when no path descriptor has the same number and the run does not end in the
undefined behaviour of line 200. -/
theorem main_close_count (w : World) (argv : List CStr) (env : Env) (h : 2 ≤ argv.length)
    (abi : Nat) (hq : w.query_abi = .ok abi) (rfd : Nat)
    (hc : w.create_ruleset (query_trace env abi) (effective_attr env abi).handled_access_fs
      (effective_attr env abi).handled_access_net = .ok rfd)
    (hfresh : ∀ tr p, w.open_path tr p ≠ .ok rfd)
    (hno : (main w argv env).1 ≠ .fault) :
    (main w argv env).2.count (.close rfd) = 1 := by
  obtain ⟨ret, evs, hr, hm⟩ := main_cases w argv env h abi hq rfd hc
  have h1 : (setup_trace env abi).count (.close rfd) = 0 :=
    List.count_eq_zero.mpr (setup_trace_no_close env abi rfd)
  have h2 : evs.count (.close rfd) = 0 := List.count_eq_zero.mpr (runs_no_close hr hfresh)
  rcases hm with ⟨_, hm⟩ | ⟨_, hm⟩ | ⟨_, hm⟩
  · rw [hm]
    simp [List.count_append, h1, h2]
  swap
  · rw [hm] at hno
    exact absurd rfl hno
  · rw [hm]
    rcases main_enforce_cases w argv rfd (setup_trace env abi ++ evs) h with
      ⟨e, hn, he⟩ | ⟨hn, e, hs, he⟩ | ⟨hn, hs, a0, cmd, args, _, hx, he⟩ |
      ⟨hn, hs, a0, cmd, args, e, _, hx, he⟩
    all_goals
      rw [he]
      simp [List.count_append, h1, h2, List.count_cons]

theorem runs_append_inv {w : World} {rfd : Nat} (A B : List Step) (tr : List Event) (ret : Nat)
    (evs : List Event) (h : Runs w rfd tr (A ++ B) ret evs) :
    (ret ≠ 0 ∧ Runs w rfd tr A ret evs) ∨
    (∃ e1 e2, evs = e1 ++ e2 ∧ Runs w rfd tr A 0 e1 ∧ Runs w rfd (tr ++ e1) B ret e2) := by
  induction A generalizing tr evs with
  | nil => exact Or.inr ⟨[], evs, rfl, .done tr, by simpa using h⟩
  | cons s A ih =>
    cases h with
    | missing _ var _ => exact Or.inl ⟨by decide, .missing tr var A⟩
    | open_fail _ a p _ e h1 => exact Or.inl ⟨by decide, .open_fail tr a p A e h1⟩
    | fstat_fail _ a p _ fd e h1 h2 =>
      exact Or.inl ⟨by decide, .fstat_fail tr a p A fd e h1 h2⟩
    | path_fail _ a p _ fd d e h1 h2 h3 =>
      exact Or.inl ⟨by decide, .path_fail tr a p A fd d e h1 h2 h3⟩
    | path_ok _ a p _ fd d _ evs' h1 h2 h3 h4 =>
      rcases ih _ _ h4 with ⟨hr, hA⟩ | ⟨e1, e2, he, hA, hB⟩
      · exact Or.inl ⟨hr, .path_ok tr a p A fd d ret evs' h1 h2 h3 hA⟩
      · refine Or.inr ⟨path_block rfd a p fd d ++ e1, e2, by simp [he],
          .path_ok tr a p A fd d 0 e1 h1 h2 h3 hA, by simpa [List.append_assoc] using hB⟩
    | port_fail _ a tok _ e h1 => exact Or.inl ⟨by decide, .port_fail tr a tok A e h1⟩
    | port_abort _ a tok _ e h1 => exact Or.inl ⟨by decide, .port_abort tr a tok A e h1⟩
    | port_ok _ a tok more _ _ evs' h1 h2 =>
      rcases ih _ _ h2 with ⟨hr, hA⟩ | ⟨e1, e2, he, hA, hB⟩
      · exact Or.inl ⟨hr, .port_ok tr a tok more A ret evs' h1 hA⟩
      · refine Or.inr ⟨port_event rfd a tok :: e1, e2, by simp [he],
          .port_ok tr a tok more A 0 e1 h1 hA, by simpa [List.append_assoc] using hB⟩

theorem runs_paths_ok {w : World} {rfd a : Nat}
    (hopen : ∀ tr p, ∃ fd, w.open_path tr p = .ok fd)
    (hstat : ∀ tr fd, ∃ d, w.fstat tr fd = .ok d)
    (hpath : ∀ tr r f m, w.add_rule_path tr r f m = .ok ())
    (paths : List CStr) (tr : List Event) (ret : Nat) (evs : List Event)
    (h : Runs w rfd tr (paths.map (.path a)) ret evs) :
    ret = 0 ∧ ∃ fds : List (Nat × Bool), fds.length = paths.length ∧
      evs = (List.zipWith (fun p x => path_block rfd a p x.1 x.2) paths fds).flatten := by
  induction paths generalizing tr evs with
  | nil =>
    cases h
    exact ⟨rfl, [], rfl, rfl⟩
  | cons t ts ih =>
    cases h with
    | open_fail _ _ _ _ e h1 =>
      obtain ⟨fd, hfd⟩ := hopen tr t
      rw [hfd] at h1
      cases h1
    | fstat_fail _ _ _ _ fd e h1 h2 =>
      obtain ⟨d, hd⟩ := hstat (tr ++ [.open_path t]) fd
      rw [hd] at h2
      cases h2
    | path_fail _ _ _ _ fd d e h1 h2 h3 =>
      rw [hpath] at h3
      cases h3
    | path_ok _ _ _ _ fd d _ evs' h1 h2 h3 h4 =>
      obtain ⟨hr, fds, hlen, he⟩ := ih _ _ h4
      exact ⟨hr, (fd, d) :: fds, by simp [hlen], by simp [he]⟩

theorem net_steps_eq (env : Env) (var : String) (a : Nat) :
    net_steps env var a = port_steps a (optional_entries (env var)) := by
  cases h : env var <;> simp [net_steps, optional_entries, h, port_steps]

theorem path_not_mem_port_steps (a b : Nat) (p : CStr) (toks : List CStr) :
    Step.path a p ∉ port_steps b toks := by
  induction toks with
  | nil => simp [port_steps]
  | cons t ts ih => simp [port_steps, ih]

theorem mem_zipWith_elim {α β γ : Type} (f : α → β → γ) (as : List α) (bs : List β) (l : γ)
    (h : l ∈ List.zipWith f as bs) : ∃ a b, l = f a b := by
  induction as generalizing bs with
  | nil => simp at h
  | cons a as ih =>
    cases bs with
    | nil => simp at h
    | cons b bs =>
      simp only [List.zipWith_cons_cons, List.mem_cons] at h
      rcases h with rfl | h
      · exact ⟨a, b, rfl⟩
      · exact ih bs h

theorem main_enforce_ok (w : World) (a0 cmd : CStr) (args : List CStr) (rfd : Nat)
    (tr : List Event)
    (hlock : ∀ tr, w.no_new_privs tr = .ok ())
    (hrestrict : ∀ tr r, w.restrict_self tr r = .ok ())
    (hexec : ∀ tr c a, w.execvpe tr c a = none) :
    main_enforce w (a0 :: cmd :: args) rfd tr =
      (.execed, tr ++ [.no_new_privs, .restrict_self rfd, .close rfd,
        .execvpe cmd (cmd :: args)]) := by
  simp only [main_enforce, hlock, hrestrict, hexec]

theorem runs_rule_ok {w : World} {rfd : Nat} {tr : List Event} {steps : List Step} {ret : Nat}
    {evs : List Event} (h : Runs w rfd tr steps ret evs) (S : List Step)
    (hS : ∀ s ∈ steps, s ∈ S) (tr0 mid : List Event) (htr : tr = tr0 ++ mid) :
    EventsAll (RuleOk w S tr0) tr evs := by
  induction h generalizing mid with
  | done => trivial
  | missing => simp [EventsAll, RuleOk]
  | open_fail => simp [EventsAll, RuleOk]
  | fstat_fail => simp [EventsAll, RuleOk]
  | path_fail tr a p rest fd d e h1 h2 h3 =>
    subst htr
    have hmem : Step.path a p ∈ S := hS _ (List.mem_cons_self _ _)
    simp only [EventsAll, RuleOk, true_and, and_true]
    exact ⟨mid, a, p, d, by simp, hmem, h1, h2, rfl⟩
  | path_ok tr a p rest fd d ret evs h1 h2 h3 _ ih =>
    subst htr
    have hmem : Step.path a p ∈ S := hS _ (List.mem_cons_self _ _)
    refine (eventsAll_append _ _ _ _).mpr
      ⟨?_, ih (fun s hs => hS s (List.mem_cons_of_mem _ hs)) (mid ++ path_block rfd a p fd d)
        (by simp)⟩
    simp only [path_block, EventsAll, RuleOk, true_and, and_true]
    exact ⟨mid, a, p, d, by simp, hmem, h1, h2, rfl⟩
  | port_fail => simp [EventsAll, RuleOk, port_event]
  | port_abort => simp [EventsAll, RuleOk, port_event]
  | port_ok tr a tok more rest ret evs h1 _ ih =>
    subst htr
    refine (eventsAll_append _ _ [_] _).mpr
      ⟨?_, ih (fun s hs => hS s (List.mem_cons_of_mem _ hs)) (mid ++ [port_event rfd a tok])
        (by simp)⟩
    simp [EventsAll, RuleOk, port_event]

theorem mem_fs_steps_path (env : Env) (var : String) (a b : Nat) (p : CStr)
    (h : Step.path b p ∈ fs_steps env var a) :
    b = a ∧ ∃ s, env var = some s ∧ p ∈ s.splitOn ENV_PATH_TOKEN := by
  cases hv : env var with
  | none => simp [fs_steps, hv] at h
  | some s =>
    simp only [fs_steps, hv, List.mem_map, Step.path.injEq] at h
    obtain ⟨q, hq, rfl, rfl⟩ := h
    refine ⟨rfl, s, rfl, ?_⟩
    by_cases h0 : s = []
    · simp [entries, h0] at hq
    · simpa [entries, h0] using hq

/-- Every registration of a path rule that a call of `populate_ruleset_fs` adds
to the trace follows the `open` and the `fstat` of a path of its variable, with
the mask of the call for a directory and its intersection with `ACCESS_FILE`
otherwise. -/
theorem populate_ruleset_fs_rule_ok (w : World) (var : String) (rfd allowed : Nat) (st : State)
    (pre : List Event) (r f m : Nat) (post : List Event)
    (h : (populate_ruleset_fs w var rfd allowed st).2.trace =
      st.trace ++ (pre ++ .add_rule_path r f m :: post)) :
    ∃ pre1 p d s, pre = pre1 ++ [.open_path p, .fstat f] ∧ st.env var = some s ∧
      p ∈ s.splitOn ENV_PATH_TOKEN ∧ w.open_path (st.trace ++ pre1) p = .ok f ∧
      w.fstat (st.trace ++ pre1 ++ [.open_path p]) f = .ok d ∧
      m = (if d then allowed else allowed &&& ACCESS_FILE) := by
  obtain ⟨ret, evs, env1, hp, _, _, hr⟩ := populate_ruleset_fs_run w var rfd allowed st
  rw [hp] at h
  have hevs := List.append_cancel_left h
  have hrule := eventsAll_split (runs_rule_ok hr _ (fun s hs => hs) st.trace [] (by simp))
    pre _ post hevs
  simp only [RuleOk] at hrule
  obtain ⟨pre1, b, p, d, hpre, hmem, hopen, hstat, hmask⟩ := hrule
  obtain ⟨rfl, s, hs, hps⟩ := mem_fs_steps_path _ _ _ _ _ hmem
  rw [List.append_assoc] at hpre
  exact ⟨pre1, p, d, s, List.append_cancel_left hpre, hs, hps, hopen, hstat, hmask⟩

theorem mem_plan_path (env : Env) (aro arw a : Nat) (p : CStr)
    (h : Step.path a p ∈ plan env aro arw) :
    (a = aro ∧ ∃ s, env ENV_FS_RO_NAME = some s ∧ p ∈ s.splitOn ENV_PATH_TOKEN) ∨
    (a = arw ∧ ∃ s, env ENV_FS_RW_NAME = some s ∧ p ∈ s.splitOn ENV_PATH_TOKEN) := by
  have hent : ∀ s : CStr, p ∈ entries s → p ∈ s.splitOn ENV_PATH_TOKEN := by
    intro s hs
    by_cases h0 : s = []
    · simp [entries, h0] at hs
    · simpa [entries, h0] using hs
  simp only [plan, List.mem_append] at h
  rcases h with h | h | h | h
  · left
    cases hro : env ENV_FS_RO_NAME with
    | none => simp [fs_steps, hro] at h
    | some s =>
      simp only [fs_steps, hro, List.mem_map, Step.path.injEq] at h
      obtain ⟨q, hq, rfl, rfl⟩ := h
      exact ⟨rfl, s, rfl, hent s hq⟩
  · right
    cases hrw : env ENV_FS_RW_NAME with
    | none => simp [fs_steps, hrw] at h
    | some s =>
      simp only [fs_steps, hrw, List.mem_map, Step.path.injEq] at h
      obtain ⟨q, hq, rfl, rfl⟩ := h
      exact ⟨rfl, s, rfl, hent s hq⟩
  · rw [net_steps_eq] at h
    exact absurd h (path_not_mem_port_steps _ _ _ _)
  · rw [net_steps_eq] at h
    exact absurd h (path_not_mem_port_steps _ _ _ _)

theorem main_rule_ok (w : World) (argv : List CStr) (env : Env) (h : 2 ≤ argv.length)
    (abi : Nat) (hq : w.query_abi = .ok abi) :
    EventsAll (RuleOk w (plan env (effective_fs_ro env abi) (effective_fs_rw env abi)) []) []
      (main w argv env).2 := by
  have hsetup : EventsAll (RuleOk w (plan env (effective_fs_ro env abi)
      (effective_fs_rw env abi)) []) [] (setup_trace env abi) := by
    apply eventsAll_of_forall
    intro x hx h
    simp only [setup_trace, List.mem_append, List.mem_singleton] at hx
    rcases hx with hx | rfl
    · rcases mem_query_trace env abi x hx with rfl | rfl | rfl <;> trivial
    · trivial
  cases hc : w.create_ruleset (query_trace env abi) (effective_attr env abi).handled_access_fs
      (effective_attr env abi).handled_access_net with
  | error e =>
    rw [main_of_create_error w argv env h abi hq e hc]
    exact (eventsAll_append _ _ _ _).mpr ⟨hsetup, by simp [EventsAll, RuleOk]⟩
  | ok rfd =>
    obtain ⟨ret, evs, hr, hm⟩ := main_cases w argv env h abi hq rfd hc
    have hev := runs_rule_ok hr _ (fun s hs => hs) [] (setup_trace env abi) (by simp)
    have hall := (eventsAll_append _ [] _ _).mpr ⟨hsetup, by simpa using hev⟩
    rcases hm with ⟨_, hm⟩ | ⟨_, hm⟩ | ⟨_, hm⟩
    · rw [hm]
      exact (eventsAll_append _ _ _ _).mpr ⟨hall, by simp [EventsAll, RuleOk]⟩
    swap
    · rw [hm]
      exact hall
    · rw [hm]
      rcases main_enforce_cases w argv rfd (setup_trace env abi ++ evs) h with
        ⟨e, hn, he⟩ | ⟨hn, e, hs, he⟩ | ⟨hn, hs, a0, cmd, args, _, hx, he⟩ |
        ⟨hn, hs, a0, cmd, args, e, _, hx, he⟩
      all_goals
        rw [he]
        exact (eventsAll_append _ _ _ _).mpr ⟨hall, by simp [EventsAll, RuleOk]⟩

theorem land_access_file_dir_only (x : Nat) : x &&& ACCESS_FILE &&& ACCESS_DIR_ONLY = 0 := by
  rw [Nat.land_assoc]
  have : ACCESS_FILE &&& ACCESS_DIR_ONLY = 0 := by decide
  rw [this]
  simp

theorem land_rw_access_file (x : Nat) :
    (ACCESS_FS_ROUGHLY_READ ||| ACCESS_FS_ROUGHLY_WRITE) &&& x &&& ACCESS_FILE =
      ACCESS_FILE &&& x := by
  rw [Nat.land_comm _ x, Nat.land_assoc, Nat.land_comm x]
  have : (ACCESS_FS_ROUGHLY_READ ||| ACCESS_FS_ROUGHLY_WRITE) &&& ACCESS_FILE = ACCESS_FILE := by
    decide
  rw [this]

/-- In every trace of `main`, the events before the privilege lock are not
calls of `landlock_restrict_self` or `execvpe` (nor another privilege lock), and
the events after it are not calls that open a path or register a rule. -/
theorem main_lock_order (w : World) (argv : List CStr) (env : Env)
    (pre post : List Event) (hs : (main w argv env).2 = pre ++ .no_new_privs :: post) :
    (∀ x ∈ pre, enforce_kind x = false) ∧ (∀ x ∈ post, after_lock_kind x = true) := by
  have hmem : Event.no_new_privs ∈ (main w argv env).2 := by rw [hs]; simp
  by_cases h : 2 ≤ argv.length
  swap
  · rw [main_of_short w argv env (by omega)] at hmem
    simp at hmem
  cases hq : w.query_abi with
  | error err =>
    rw [main_of_query_error w argv env h err hq] at hmem
    simp only [List.mem_append, List.mem_cons, List.mem_singleton, List.not_mem_nil,
      or_false, reduceCtorEq, false_or] at hmem
    split_ifs at hmem <;> simp at hmem
  | ok abi =>
    cases hc : w.create_ruleset (query_trace env abi)
        (effective_attr env abi).handled_access_fs
        (effective_attr env abi).handled_access_net with
    | error e =>
      rw [main_of_create_error w argv env h abi hq e hc] at hmem
      rcases List.mem_append.mp hmem with hm | hm
      · have := setup_trace_not_enforce env abi _ hm
        simp [enforce_kind] at this
      · simp at hm
    | ok rfd =>
      obtain ⟨ret, evs, hr, hm⟩ := main_cases w argv env h abi hq rfd hc
      have hk : ∀ x ∈ setup_trace env abi ++ evs, enforce_kind x = false := by
        intro x hx
        rcases List.mem_append.mp hx with hx | hx
        · exact setup_trace_not_enforce env abi x hx
        · exact populate_kind_not_enforce x (runs_kind hr x hx)
      have hk' : ∀ x ∈ setup_trace env abi ++ evs, (x == Event.no_new_privs) = false := by
        intro x hx
        have := hk x hx
        cases x <;> simp_all [enforce_kind]
      rcases hm with ⟨_, hm⟩ | ⟨_, hm⟩ | ⟨_, hm⟩
      · rw [hm] at hmem
        rcases List.mem_append.mp hmem with hx | hx
        · have := hk _ hx
          simp [enforce_kind] at this
        · simp at hx
      swap
      · rw [hm] at hmem
        have := hk _ hmem
        simp [enforce_kind] at this
      · rw [hm] at hs
        rcases main_enforce_cases w argv rfd (setup_trace env abi ++ evs) h with
          ⟨e, _, he⟩ | ⟨_, e, _, he⟩ | ⟨_, _, a0, cmd, args, _, _, he⟩ |
          ⟨_, _, a0, cmd, args, e, _, _, he⟩
        all_goals
          rw [he] at hs
          simp only [List.append_assoc, List.cons_append, List.nil_append] at hs
          rw [← List.append_assoc] at hs
          obtain ⟨rfl, _, rfl⟩ := split_unique (fun x => x == Event.no_new_privs) _ _ _ _ _ _ hs
            (by simp) hk' (by simp)
          exact ⟨hk, by simp [after_lock_kind]⟩

/-- In a run of `main` that does not end in the undefined behaviour of line 200
and in which the ruleset is created with descriptor `rfd`, if a step fails
(`open`, `fstat`, a registration, the report of a missing mandatory variable,
the privilege lock or `landlock_restrict_self`), then `main` returns 1; after
the failing step there are only messages and calls of `close`, so no path is
opened and no rule is registered after it; `execvpe` is never called;
`landlock_restrict_self` is never called unless it is the failing step; the
failing step comes after the creation; and the descriptor of the ruleset is
closed exactly once (when no path descriptor has the same number). -/
theorem main_fail_closed (w : World) (argv : List CStr) (env : Env)
    (pre0 : List Event) (fs net : Nat) (post0 : List Event) (rfd : Nat)
    (hcreated : (main w argv env).2 = pre0 ++ .create_ruleset fs net :: post0)
    (hfd : w.create_ruleset pre0 fs net = .ok rfd)
    (pre : List Event) (e : Event) (post : List Event)
    (hsplit : (main w argv env).2 = pre ++ e :: post)
    (hfail : step_fails w pre e = true)
    (hno : (main w argv env).1 ≠ .fault) :
    (main w argv env).1 = .exit 1 ∧
    (∀ x ∈ post, (∃ m, x = .stderr m) ∨ (∃ fd, x = .close fd)) ∧
    (∀ x ∈ (main w argv env).2, ∀ c a, x ≠ .execvpe c a) ∧
    ((∀ fd, e ≠ .restrict_self fd) →
      ∀ x ∈ (main w argv env).2, ∀ fd, x ≠ .restrict_self fd) ∧
    pre0.length < pre.length ∧
    ((∀ tr p, w.open_path tr p ≠ .ok rfd) → (main w argv env).2.count (.close rfd) = 1) := by
  obtain ⟨h2, abi, hq, rfl, rfl, rfl⟩ := main_create_unique w argv env pre0 fs net post0 hcreated
  have hquiet : ∀ x, quiet x = true → (∃ m, x = Event.stderr m) ∨ (∃ fd, x = Event.close fd) := by
    intro x hx
    cases x <;> simp_all [quiet]
  have hquiet_late : ∀ x, quiet x = true → late_kind x = false := by
    intro x hx
    cases x <;> simp_all [quiet, late_kind]
  have hfail_exec : ∀ tr c a, step_fails w tr (.execvpe c a) = false := fun _ _ _ => rfl
  rcases main_clean_or_failed w argv env h2 abi hq rfd hfd with
    hclean | ⟨hexit, p, f, q, hT, hp, hf, hq', hlate⟩ | hfault
  rotate_left 2
  · exact absurd hfault hno
  · have := eventsAll_split hclean pre e post hsplit
    simp only [List.nil_append] at this
    rw [this] at hfail
    exact absurd hfail (by decide)
  · obtain ⟨rfl, rfl, rfl⟩ := failing_step_unique w [] p f q hp hq' pre e post
      (hT.symm.trans hsplit) (by simpa using hfail)
    have hnolate : (∀ fd, e ≠ .restrict_self fd) → ∀ x ∈ (main w argv env).2,
        late_kind x = false := by
      intro he x hx
      rw [hT] at hx
      simp only [List.mem_append, List.mem_cons] at hx
      rcases hx with hx | rfl | hx
      · exact hlate x hx
      · cases x <;> first | rfl | (exact absurd rfl (he _)) | skip
        rw [hfail_exec] at hfail
        exact absurd hfail (by decide)
      · exact hquiet_late x (hq' x hx)
    refine ⟨hexit, fun x hx => hquiet x (hq' x hx), ?_, ?_, ?_, ?_⟩
    · intro x hx c a hxe
      subst hxe
      rw [hT] at hx
      simp only [List.mem_append, List.mem_cons] at hx
      rcases hx with hx | hx | hx
      · have := hlate _ hx
        simp [late_kind] at this
      · subst hx
        rw [hfail_exec] at hfail
        exact absurd hfail (by decide)
      · have := hq' _ hx
        simp [quiet] at this
    · intro he x hx fd hxe
      subst hxe
      have := hnolate he _ hx
      simp [late_kind] at this
    · have hmem : Event.create_ruleset (effective_attr env abi).handled_access_fs
          (effective_attr env abi).handled_access_net ∈ pre := by
        have hsame := hcreated.symm.trans hsplit
        have hcm : Event.create_ruleset (effective_attr env abi).handled_access_fs
            (effective_attr env abi).handled_access_net ∈ pre ++ e :: post := by
          rw [← hsame]; simp
        simp only [List.mem_append, List.mem_cons] at hcm
        rcases hcm with hcm | hcm | hcm
        · exact hcm
        · rw [← hcm] at hfail
          simp [step_fails] at hfail
        · have := hq' _ hcm
          simp [quiet] at this
      obtain ⟨a, b, hab⟩ := List.append_of_mem hmem
      have hsame := hcreated.symm.trans hsplit
      rw [hab, List.append_assoc, List.cons_append] at hsame
      have := split_unique (fun x => !after_create_kind x && x != .query_abi) _ _ _ _ _ _ hsame
        (by simp [after_create_kind])
        (by
          intro x hx
          rcases mem_query_trace env abi x hx with rfl | rfl | rfl <;> simp [after_create_kind])
        (by
          intro x hx
          obtain ⟨rest, hrest, hk⟩ := main_after_setup w argv env h2 abi hq
          rw [hrest, setup_trace, List.append_assoc, List.singleton_append] at hcreated
          have := List.append_cancel_left hcreated
          simp only [List.cons.injEq, true_and] at this
          rw [← this] at hx
          simp [hk x hx])
      rw [hab, ← this.1]
      simp
    · exact fun hfresh => main_close_count w argv env h2 abi hq rfd hfd hfresh hno

/-- The run with `LL_FS_RO=/a:/b:/c` in which the registration of `/b` fails:
`/c`, the path of `LL_FS_RW` and the ports are never registered, the ruleset is
closed once, and `main` returns 1 without calling `execvpe`. -/
theorem main_fail_closed_instance :
    main world_rule_fails ["sandboxer".toList, "/bin/true".toList]
        (env_of (some "/a:/b:/c") (some "/tmp") (some "80") (some "443")) =
      (.exit 1, [.query_abi, .create_ruleset 32767 3,
        .open_path "/a".toList, .fstat 4, .add_rule_path 3 4 13, .close 4,
        .open_path "/b".toList, .fstat 4, .add_rule_path 3 4 13,
        .stderr (.failedUpdatePath "/b".toList 22), .close 4, .close 3]) ∧
    (main world_rule_fails ["sandboxer".toList, "/bin/true".toList]
        (env_of (some "/a:/b:/c") (some "/tmp") (some "80") (some "443"))).2.count
      (.close 3) = 1 := by
  have h := main_fail_closed world_rule_fails ["sandboxer".toList, "/bin/true".toList]
    (env_of (some "/a:/b:/c") (some "/tmp") (some "80") (some "443"))
    [.query_abi] 32767 3
    [.open_path "/a".toList, .fstat 4, .add_rule_path 3 4 13, .close 4,
      .open_path "/b".toList, .fstat 4, .add_rule_path 3 4 13,
      .stderr (.failedUpdatePath "/b".toList 22), .close 4, .close 3] 3
    (by decide) rfl
    [.query_abi, .create_ruleset 32767 3,
      .open_path "/a".toList, .fstat 4, .add_rule_path 3 4 13, .close 4,
      .open_path "/b".toList, .fstat 4]
    (.add_rule_path 3 4 13)
    [.stderr (.failedUpdatePath "/b".toList 22), .close 4, .close 3]
    (by decide) (by decide) (by decide)
  exact ⟨by decide, h.2.2.2.2.2 (by intro tr p; simp [world_rule_fails, world_ok])⟩

/-! ## The claims -/

/-- C1: after the switch of `main` at ABI version `L ≥ 1`, a bit of the
filesystem mask is set exactly when it is set in the request and it is neither
the refer bit with `L < 2` nor the truncate bit with `L < 3`; the network mask
is zero when `L < 4` and the request otherwise; for `L ≥ 4` both masks are the
request; the masks at `L` are contained in the masks at `L + 1`; and these are
the masks of every call of `main` that creates a ruleset. -/
theorem C1_effective_masks (fs net L : Nat) (hfs : fs < 2 ^ 64) (hL : 1 ≤ L) :
    (∀ i, (best_effort L ⟨fs, net⟩).1.handled_access_fs.testBit i =
      (fs.testBit i && !(decide (L < 2) && LANDLOCK_ACCESS_FS_REFER.testBit i)
        && !(decide (L < 3) && LANDLOCK_ACCESS_FS_TRUNCATE.testBit i))) ∧
    (best_effort L ⟨fs, net⟩).1.handled_access_net = (if L < 4 then 0 else net) ∧
    (4 ≤ L → (best_effort L ⟨fs, net⟩).1 = ⟨fs, net⟩) ∧
    (∀ i, (best_effort L ⟨fs, net⟩).1.handled_access_fs.testBit i = true →
      (best_effort (L + 1) ⟨fs, net⟩).1.handled_access_fs.testBit i = true) ∧
    (∀ i, (best_effort L ⟨fs, net⟩).1.handled_access_net.testBit i = true →
      (best_effort (L + 1) ⟨fs, net⟩).1.handled_access_net.testBit i = true) ∧
    (∀ (w : World) (argv : List CStr) (env : Env), 2 ≤ argv.length → w.query_abi = .ok L →
      fs = ACCESS_FS_ROUGHLY_READ ||| ACCESS_FS_ROUGHLY_WRITE → net = access_net_tcp env →
      Event.create_ruleset (best_effort L ⟨fs, net⟩).1.handled_access_fs
        (best_effort L ⟨fs, net⟩).1.handled_access_net ∈ (main w argv env).2 ∧
      ∀ f n, Event.create_ruleset f n ∈ (main w argv env).2 →
        f = (best_effort L ⟨fs, net⟩).1.handled_access_fs ∧
        n = (best_effort L ⟨fs, net⟩).1.handled_access_net) := by
  refine ⟨fun i => best_effort_fs_testBit fs net L i hfs hL, best_effort_net fs net L hL,
    fun h => best_effort_ge L _ h, ?_, ?_, ?_⟩
  · intro i
    rw [best_effort_fs_testBit fs net L i hfs hL,
      best_effort_fs_testBit fs net (L + 1) i hfs (by omega)]
    have h2 : ¬ (L + 1 < 2) := by omega
    simp only [h2, decide_False, Bool.false_and, Bool.not_false, Bool.and_true]
    intro h
    simp only [Bool.and_eq_true] at h
    by_cases h3 : L + 1 < 3
    · have : L < 3 := by omega
      simp only [this, decide_True, Bool.true_and] at h
      simp [h.1.1, h.2]
    · simp [h3, h.1.1]
  · intro i
    rw [best_effort_net fs net L hL, best_effort_net fs net (L + 1) (by omega)]
    by_cases h4 : L < 4
    · simp [h4]
    · have : ¬ (L + 1 < 4) := by omega
      simp [h4, this]
  · intro w argv env h2 hq hfs' hnet
    subst hfs' hnet
    refine ⟨main_create_mem w argv env h2 L hq, ?_⟩
    intro f n hmem
    obtain ⟨pre, post, hs⟩ := List.append_of_mem hmem
    obtain ⟨_, abi, hq', _, hf, hn⟩ := main_create_unique w argv env pre f n post hs
    rw [hq] at hq'
    cases hq'
    exact ⟨hf, hn⟩

/-- C1 at level 1 and the request of `main` with both network variables set: the
masks of the ruleset are the request without the refer and truncate bits, and
no network right. -/
theorem C1_effective_masks_witness :
    (best_effort 1 ⟨32767, 3⟩).1 = ⟨8191, 0⟩ ∧
    Event.create_ruleset 8191 0 ∈
      (main (world_ok 1) ["sandboxer".toList, "/bin/true".toList]
        (env_of (some "/usr") (some "/tmp") (some "80") (some "443"))).2 := by
  have h := C1_effective_masks 32767 3 1 (by decide) (by decide)
  refine ⟨by decide, ?_⟩
  have h6 := (h.2.2.2.2.2 (world_ok 1) ["sandboxer".toList, "/bin/true".toList]
    (env_of (some "/usr") (some "/tmp") (some "80") (some "443")) (by decide) rfl
    (by decide) (by decide)).1
  have e : (best_effort 1 ⟨32767, 3⟩).1 = ⟨8191, 0⟩ := by decide
  rw [e] at h6
  exact h6

/-- C2: every registration of a path rule that a call of `populate_ruleset_fs`
adds to the trace directly follows the `open` of a path of its variable and the
`fstat` of the descriptor that this `open` returned; its mask is the mask given
to the call when `fstat` finds a directory, and this intersected with
`ACCESS_FILE` otherwise.  In a trace of `main` the path is one of `LL_FS_RO` or
of `LL_FS_RW` and the mask given is the request of that variable
(`ACCESS_FS_ROUGHLY_READ`, or this with `ACCESS_FS_ROUGHLY_WRITE`) intersected
with the filesystem mask of the ruleset.  For a path of `LL_FS_RW` that is not a
directory the mask is `ACCESS_FILE` intersected with the mask of the ruleset,
and no rule of a path that is not a directory has a read-dir, remove, make or
refer right. -/
theorem C2_rule_masks (w : World) :
    (∀ (env_var : String) (ruleset_fd allowed_access : Nat) (st : State) (pre : List Event)
        (rfd pfd mask : Nat) (post : List Event),
      (populate_ruleset_fs w env_var ruleset_fd allowed_access st).2.trace =
        st.trace ++ (pre ++ .add_rule_path rfd pfd mask :: post) →
      ∃ pre1 p d s, pre = pre1 ++ [.open_path p, .fstat pfd] ∧
        st.env env_var = some s ∧ p ∈ s.splitOn ENV_PATH_TOKEN ∧
        w.open_path (st.trace ++ pre1) p = .ok pfd ∧
        w.fstat (st.trace ++ pre1 ++ [.open_path p]) pfd = .ok d ∧
        mask = (if d then allowed_access else allowed_access &&& ACCESS_FILE)) ∧
    (∀ (argv : List CStr) (env : Env) (pre : List Event) (rfd pfd mask : Nat)
        (post : List Event),
      (main w argv env).2 = pre ++ .add_rule_path rfd pfd mask :: post →
      ∃ abi pre1 p d, w.query_abi = .ok abi ∧ pre = pre1 ++ [.open_path p, .fstat pfd] ∧
        w.open_path pre1 p = .ok pfd ∧ w.fstat (pre1 ++ [.open_path p]) pfd = .ok d ∧
        ((∃ s, env ENV_FS_RO_NAME = some s ∧ p ∈ s.splitOn ENV_PATH_TOKEN ∧
            mask = (if d then
                ACCESS_FS_ROUGHLY_READ &&& (effective_attr env abi).handled_access_fs
              else
                ACCESS_FS_ROUGHLY_READ &&& (effective_attr env abi).handled_access_fs &&&
                  ACCESS_FILE)) ∨
         (∃ s, env ENV_FS_RW_NAME = some s ∧ p ∈ s.splitOn ENV_PATH_TOKEN ∧
            mask = (if d then
                (ACCESS_FS_ROUGHLY_READ ||| ACCESS_FS_ROUGHLY_WRITE) &&&
                  (effective_attr env abi).handled_access_fs
              else
                (ACCESS_FS_ROUGHLY_READ ||| ACCESS_FS_ROUGHLY_WRITE) &&&
                  (effective_attr env abi).handled_access_fs &&& ACCESS_FILE) ∧
            (d = false →
              mask = ACCESS_FILE &&& (effective_attr env abi).handled_access_fs))) ∧
        (d = false → mask &&& ACCESS_DIR_ONLY = 0)) := by
  refine ⟨fun var rfd0 a st pre rfd pfd mask post h =>
    populate_ruleset_fs_rule_ok w var rfd0 a st pre rfd pfd mask post h, ?_⟩
  intro argv env pre rfd pfd mask post hsplit
  have hmem : Event.add_rule_path rfd pfd mask ∈ (main w argv env).2 := by rw [hsplit]; simp
  by_cases h : 2 ≤ argv.length
  swap
  · rw [main_of_short w argv env (by omega)] at hmem
    simp at hmem
  cases hq : w.query_abi with
  | error err =>
    rw [main_of_query_error w argv env h err hq] at hmem
    simp only [List.mem_append, List.mem_cons, List.mem_singleton, List.not_mem_nil,
      or_false, reduceCtorEq, false_or] at hmem
    split_ifs at hmem <;> simp at hmem
  | ok abi =>
    have hrule := eventsAll_split (main_rule_ok w argv env h abi hq) pre _ post hsplit
    simp only [List.nil_append, RuleOk] at hrule
    obtain ⟨pre1, a, p, d, hpre, hplan, hopen, hstat, hmask⟩ := hrule
    refine ⟨abi, pre1, p, d, rfl, hpre, hopen, hstat, ?_, ?_⟩
    · rcases mem_plan_path env _ _ a p hplan with ⟨rfl, s, hs, hp⟩ | ⟨rfl, s, hs, hp⟩
      · exact Or.inl ⟨s, hs, hp, by simpa [effective_fs_ro] using hmask⟩
      · refine Or.inr ⟨s, hs, hp, by simpa [effective_fs_rw] using hmask, ?_⟩
        intro hd
        subst hd
        simp only [Bool.false_eq_true, if_false, effective_fs_rw] at hmask
        rw [hmask, land_rw_access_file]
    · intro hd
      subst hd
      simp only [Bool.false_eq_true, if_false] at hmask
      rw [hmask, land_access_file_dir_only]

/-- C2 at ABI version 2 for the file `/tmp/f` of `LL_FS_RW`: the mask of its rule
is execute, write-file and read-file (truncate is not handled at version 2). -/
theorem C2_rule_masks_witness :
    main world_files ["sandboxer".toList, "/bin/true".toList]
        (env_of (some "") (some "/tmp/f") none none) =
      (.execed, [.query_abi, .stderr (.hintUpdateKernel 4 2), .create_ruleset 16383 0,
        .open_path "/tmp/f".toList, .fstat 4, .add_rule_path 3 4 7, .close 4,
        .no_new_privs, .restrict_self 3, .close 3,
        .execvpe "/bin/true".toList ["/bin/true".toList]]) ∧
    (7 : Nat) = ACCESS_FILE &&& 16383 ∧
    (7 : Nat) &&& ACCESS_DIR_ONLY = 0 := by
  obtain ⟨abi, pre1, p, d, hq, hpre, hopen, hstat, hcat, hdir⟩ :=
    (C2_rule_masks world_files).2 ["sandboxer".toList, "/bin/true".toList]
      (env_of (some "") (some "/tmp/f") none none)
      [.query_abi, .stderr (.hintUpdateKernel 4 2), .create_ruleset 16383 0,
        .open_path "/tmp/f".toList, .fstat 4] 3 4 7
      [.close 4, .no_new_privs, .restrict_self 3, .close 3,
        .execvpe "/bin/true".toList ["/bin/true".toList]] (by decide)
  have hd : d = false := by
    have : world_files.fstat (pre1 ++ [.open_path p]) 4 = .ok false := rfl
    rw [hstat] at this
    cases this
    rfl
  exact ⟨by decide, by decide, hdir hd⟩

/-- C3 does not hold when the registration of a port is refused while tokens of
the same variable are left.  At ABI version 4 with `LL_FS_RO=/usr`,
`LL_FS_RW=/tmp` and `LL_TCP_CONNECT=70000:443`, the ruleset is created with
descriptor 3 and the kernel refuses the rule of port 70000: this registration
is a failing step after the creation, and the run ends in the undefined
behaviour of `free(env_port_name)` at line 200, whose argument `strsep` has
moved to the token `443`.  The function `main` does not return 1 and the
descriptor 3 is never closed.  With the ports in the other order
(`LL_TCP_CONNECT=443:70000`) the refused token is the last one, the pointer is
`NULL`, and `main` closes the ruleset and returns 1. -/
theorem C3_refused_port_not_closed :
    main world_port_range ["sandboxer".toList, "/bin/true".toList]
        (env_of (some "/usr") (some "/tmp") none (some "70000:443")) =
      (.fault, [.query_abi, .create_ruleset 32767 2,
        .open_path "/usr".toList, .fstat 4, .add_rule_path 3 4 13, .close 4,
        .open_path "/tmp".toList, .fstat 4, .add_rule_path 3 4 32767, .close 4,
        .add_rule_net 3 70000 2, .stderr (.failedUpdatePort 70000 22)]) ∧
    world_port_range.create_ruleset [.query_abi] 32767 2 = .ok 3 ∧
    step_fails world_port_range [.query_abi, .create_ruleset 32767 2,
        .open_path "/usr".toList, .fstat 4, .add_rule_path 3 4 13, .close 4,
        .open_path "/tmp".toList, .fstat 4, .add_rule_path 3 4 32767, .close 4]
      (.add_rule_net 3 70000 2) = true ∧
    (main world_port_range ["sandboxer".toList, "/bin/true".toList]
        (env_of (some "/usr") (some "/tmp") none (some "70000:443"))).1 ≠ .exit 1 ∧
    (main world_port_range ["sandboxer".toList, "/bin/true".toList]
        (env_of (some "/usr") (some "/tmp") none (some "70000:443"))).2.count (.close 3) = 0 ∧
    main world_port_range ["sandboxer".toList, "/bin/true".toList]
        (env_of (some "/usr") (some "/tmp") none (some "443:70000")) =
      (.exit 1, [.query_abi, .create_ruleset 32767 2,
        .open_path "/usr".toList, .fstat 4, .add_rule_path 3 4 13, .close 4,
        .open_path "/tmp".toList, .fstat 4, .add_rule_path 3 4 32767, .close 4,
        .add_rule_net 3 443 2, .add_rule_net 3 70000 2,
        .stderr (.failedUpdatePort 70000 22), .close 3]) := by
  exact ⟨by decide, rfl, by decide, by decide, by decide, by decide⟩

/-- C4: when both filesystem variables are in the environment and every call
succeeds, `main` does not return and its trace is exactly: the query of the ABI
version and the hint of the switch; the creation of the ruleset; for each path
of `LL_FS_RO` in order, and then for each path of `LL_FS_RW` in order, `open`,
`fstat`, one registration and `close`; one registration for each port of
`LL_TCP_BIND` in order, then one for each port of `LL_TCP_CONNECT` in order; the
privilege lock; `landlock_restrict_self`; the release of the ruleset; `execvpe`
of the command with its arguments.  At ABI version 4 nothing is written to
standard error.  In every run, also one that fails, the privilege lock comes
before every call of `landlock_restrict_self` and of `execvpe`, and no path is
opened and no rule is registered after it. -/
theorem C4_successful_run_order (w : World) (argv : List CStr) (env : Env) :
    (∀ (a0 cmd : CStr) (args : List CStr) (abi rfd : Nat) (ro rw : CStr),
      argv = a0 :: cmd :: args →
      env ENV_FS_RO_NAME = some ro → env ENV_FS_RW_NAME = some rw →
      w.query_abi = .ok abi →
      (∀ tr fs net, w.create_ruleset tr fs net = .ok rfd) →
      (∀ tr p, ∃ fd, w.open_path tr p = .ok fd) →
      (∀ tr fd, ∃ d, w.fstat tr fd = .ok d) →
      (∀ tr r f m, w.add_rule_path tr r f m = .ok ()) →
      (∀ tr r p m, w.add_rule_net tr r p m = .ok ()) →
      (∀ tr, w.no_new_privs tr = .ok ()) →
      (∀ tr r, w.restrict_self tr r = .ok ()) →
      (∀ tr c a, w.execvpe tr c a = none) →
      (∃ ro_fds rw_fds : List (Nat × Bool),
        ro_fds.length = (entries ro).length ∧ rw_fds.length = (entries rw).length ∧
        main w argv env = (.execed,
          query_trace env abi ++
          [.create_ruleset (effective_attr env abi).handled_access_fs
            (effective_attr env abi).handled_access_net] ++
          (List.zipWith (fun p x => [Event.open_path p, .fstat x.1,
              .add_rule_path rfd x.1
                (if x.2 then effective_fs_ro env abi
                 else effective_fs_ro env abi &&& ACCESS_FILE),
              .close x.1]) (entries ro) ro_fds).flatten ++
          (List.zipWith (fun p x => [Event.open_path p, .fstat x.1,
              .add_rule_path rfd x.1
                (if x.2 then effective_fs_rw env abi
                 else effective_fs_rw env abi &&& ACCESS_FILE),
              .close x.1]) (entries rw) rw_fds).flatten ++
          (optional_entries (env ENV_TCP_BIND_NAME)).map (fun tok =>
            Event.add_rule_net rfd (u64_of_int (atoi tok)) LANDLOCK_ACCESS_NET_BIND_TCP) ++
          (optional_entries (env ENV_TCP_CONNECT_NAME)).map (fun tok =>
            Event.add_rule_net rfd (u64_of_int (atoi tok)) LANDLOCK_ACCESS_NET_CONNECT_TCP) ++
          [.no_new_privs, .restrict_self rfd, .close rfd, .execvpe cmd (cmd :: args)])) ∧
      (abi = LANDLOCK_ABI_LAST → ∀ m, Event.stderr m ∉ (main w argv env).2)) ∧
    (∀ pre post : List Event, (main w argv env).2 = pre ++ .no_new_privs :: post →
      (∀ x ∈ pre, x ≠ .no_new_privs ∧ (∀ fd, x ≠ .restrict_self fd) ∧
        (∀ c a, x ≠ .execvpe c a)) ∧
      (∀ x ∈ post, (∀ p, x ≠ .open_path p) ∧ (∀ r f m, x ≠ .add_rule_path r f m) ∧
        (∀ r p m, x ≠ .add_rule_net r p m))) := by
  refine ⟨?_, ?_⟩
  · rintro a0 cmd args abi rfd ro rw rfl hro hrw hq hcreate hopen hstat hpath hnet hlock
      hrestrict hexec
    have h2 : 2 ≤ (a0 :: cmd :: args).length := by simp
    obtain ⟨ret, evs, hr, hm⟩ := main_cases w (a0 :: cmd :: args) env h2 abi hq rfd
      (hcreate _ _ _)
    simp only [plan, fs_steps, hro, hrw, net_steps_eq] at hr
    rcases runs_append_inv _ _ _ _ _ hr with ⟨hne, hA⟩ | ⟨e1, r1, rfl, hA, hr⟩
    · exact absurd (runs_paths_ok hopen hstat hpath _ _ _ _ hA).1 hne
    obtain ⟨_, ro_fds, hlen1, rfl⟩ := runs_paths_ok hopen hstat hpath _ _ _ _ hA
    rcases runs_append_inv _ _ _ _ _ hr with ⟨hne, hB⟩ | ⟨e2, r2, rfl, hB, hr⟩
    · exact absurd (runs_paths_ok hopen hstat hpath _ _ _ _ hB).1 hne
    obtain ⟨_, rw_fds, hlen2, rfl⟩ := runs_paths_ok hopen hstat hpath _ _ _ _ hB
    rcases runs_append_inv _ _ _ _ _ hr with ⟨hne, hC⟩ | ⟨e3, e4, rfl, hC, hD⟩
    · exact absurd (runs_ports_ok hnet _ _ _ _ hC).1 hne
    obtain ⟨_, rfl⟩ := runs_ports_ok hnet _ _ _ _ hC
    obtain ⟨rfl, rfl⟩ := runs_ports_ok hnet _ _ _ _ hD
    rcases hm with ⟨h1, _⟩ | ⟨_, hm⟩ | ⟨h1, _⟩
    · exact absurd h1 (by decide)
    swap
    · exact absurd h1 (by decide)
    rw [main_enforce_ok w a0 cmd args rfd _ hlock hrestrict hexec] at hm
    refine ⟨⟨ro_fds, rw_fds, hlen1, hlen2, ?_⟩, ?_⟩
    · rw [hm]
      simp only [setup_trace, path_block, port_event, List.append_assoc]
      rfl
    · intro habi m hmem
      subst habi
      rw [hm] at hmem
      simp [setup_trace, query_trace, best_effort, LANDLOCK_ABI_LAST, path_block, port_event]
        at hmem
      rcases hmem with ⟨l, hl, hm⟩ | ⟨l, hl, hm⟩
      · obtain ⟨p, x, rfl⟩ := mem_zipWith_elim _ _ _ _ hl
        simp at hm
      · obtain ⟨p, x, rfl⟩ := mem_zipWith_elim _ _ _ _ hl
        simp at hm
  · intro pre post hs
    obtain ⟨hpre, hpost⟩ := main_lock_order w argv env pre post hs
    constructor
    · intro x hx
      have := hpre x hx
      refine ⟨?_, ?_, ?_⟩
      · rintro rfl; simp [enforce_kind] at this
      · rintro fd rfl; simp [enforce_kind] at this
      · rintro c a rfl; simp [enforce_kind] at this
    · intro x hx
      have := hpost x hx
      refine ⟨?_, ?_, ?_⟩
      · rintro p rfl; simp [after_lock_kind] at this
      · rintro r f m rfl; simp [after_lock_kind] at this
      · rintro r p m rfl; simp [after_lock_kind] at this

/-- C4 at ABI version 4 with `LL_FS_RO=/lib:/usr`, `LL_FS_RW=/tmp`,
`LL_TCP_CONNECT=443` and the command `/bin/true`: two read rules, one write
rule, one connect rule, the privilege lock, the enforcement and `execvpe`, and
no message. -/
theorem C4_successful_run_order_witness :
    main (world_ok 4) ["sandboxer".toList, "/bin/true".toList]
        (env_of (some "/lib:/usr") (some "/tmp") none (some "443")) =
      (.execed, [.query_abi, .create_ruleset 32767 2,
        .open_path "/lib".toList, .fstat 4, .add_rule_path 3 4 13, .close 4,
        .open_path "/usr".toList, .fstat 4, .add_rule_path 3 4 13, .close 4,
        .open_path "/tmp".toList, .fstat 4, .add_rule_path 3 4 32767, .close 4,
        .add_rule_net 3 443 2,
        .no_new_privs, .restrict_self 3, .close 3,
        .execvpe "/bin/true".toList ["/bin/true".toList]]) ∧
    ∀ m, Event.stderr m ∉ (main (world_ok 4) ["sandboxer".toList, "/bin/true".toList]
        (env_of (some "/lib:/usr") (some "/tmp") none (some "443"))).2 := by
  have h := (C4_successful_run_order (world_ok 4) ["sandboxer".toList, "/bin/true".toList]
    (env_of (some "/lib:/usr") (some "/tmp") none (some "443"))).1
    "sandboxer".toList "/bin/true".toList [] 4 3 "/lib:/usr".toList "/tmp".toList rfl
    (by decide) (by decide) rfl (fun _ _ _ => rfl)
    (fun _ _ => ⟨4, rfl⟩) (fun _ _ => ⟨true, rfl⟩) (fun _ _ _ _ => rfl) (fun _ _ _ _ => rfl)
    (fun _ => rfl) (fun _ _ => rfl) (fun _ _ _ => rfl)
  exact ⟨by decide, h.2 rfl⟩

/-- C5: when `LL_FS_RO` or `LL_FS_RW` is not in the environment,
`populate_ruleset_fs` returns 1 for it after the single message that names this
variable, without any call; `main` returns 1 and never calls the privilege
lock, `landlock_restrict_self` or `execvpe`.  When `LL_FS_RO` is the missing one
and the ruleset is created, the trace of `main` is the creation of the ruleset,
the message that names `LL_FS_RO` and the release of the ruleset: no path is
opened and no rule is registered. -/
theorem C5_missing_fs_variable (w : World) (argv : List CStr) (env : Env) (v : String)
    (hv : v = ENV_FS_RO_NAME ∨ v = ENV_FS_RW_NAME) (hmiss : env v = none) :
    (∀ (ruleset_fd allowed_access : Nat) (tr : List Event),
      populate_ruleset_fs w v ruleset_fd allowed_access { env := env, trace := tr } =
        (some 1, { env := env, trace := tr ++ [.stderr (.missingEnv v)] })) ∧
    (main w argv env).1 = .exit 1 ∧
    (∀ x ∈ (main w argv env).2, x ≠ .no_new_privs ∧ (∀ fd, x ≠ .restrict_self fd) ∧
      (∀ c a, x ≠ .execvpe c a)) ∧
    (v = ENV_FS_RO_NAME → ∀ (abi rfd : Nat), 2 ≤ argv.length → w.query_abi = .ok abi →
      w.create_ruleset (query_trace env abi) (effective_attr env abi).handled_access_fs
        (effective_attr env abi).handled_access_net = .ok rfd →
      (main w argv env).2 =
        query_trace env abi ++
          [.create_ruleset (effective_attr env abi).handled_access_fs
              (effective_attr env abi).handled_access_net,
            .stderr (.missingEnv ENV_FS_RO_NAME), .close rfd]) := by
  obtain ⟨hexit, hkind⟩ := main_of_missing w argv env v hv hmiss
  refine ⟨?_, hexit, ?_, ?_⟩
  · intro rfd a tr
    simp [populate_ruleset_fs, hmiss]
  · intro x hx
    have := hkind x hx
    refine ⟨?_, ?_, ?_⟩
    · rintro rfl; simp [enforce_kind] at this
    · rintro fd rfl; simp [enforce_kind] at this
    · rintro c a rfl; simp [enforce_kind] at this
  · rintro rfl abi rfd h2 hq hc
    obtain ⟨ret, evs, hr, hm⟩ := main_cases w argv env h2 abi hq rfd hc
    simp only [plan, fs_steps, hmiss, List.singleton_append] at hr
    cases hr
    rcases hm with ⟨_, hm⟩ | ⟨h0, _⟩ | ⟨h0, _⟩
    · rw [hm]
      simp [setup_trace]
    · exact absurd h0 (by decide)
    · exact absurd h0 (by decide)

/-- C5 at an environment without `LL_FS_RO` (and with `LL_FS_RW`). -/
theorem C5_missing_fs_variable_witness :
    (main (world_ok 4) ["sandboxer".toList, "/bin/true".toList]
      (env_of none (some "/tmp") none none)) =
      (.exit 1, [.query_abi, .create_ruleset 32767 0,
        .stderr (.missingEnv "LL_FS_RO"), .close 3]) := by
  have h := C5_missing_fs_variable (world_ok 4) ["sandboxer".toList, "/bin/true".toList]
    (env_of none (some "/tmp") none none) ENV_FS_RO_NAME (Or.inl rfl) (by decide)
  have h4 := h.2.2.2 rfl 4 3 (by decide) rfl rfl
  refine Prod.ext h.2.1 ?_
  rw [h4]
  decide

/-- C6 does not hold at ABI version 3 with `LL_TCP_BIND=80`: the ruleset is
created with the network mask 0, and `main` still passes a rule for port 80 with
the bind right to `landlock_add_rule`; this right is not contained in the
network mask of the ruleset.  When the kernel refuses the rule, `main` reports
the port and returns 1. -/
theorem C6_net_rule_outside_mask :
    main (world_ok 3) ["sandboxer".toList, "/bin/true".toList]
        (env_of (some "") (some "") (some "80") none) =
      (.execed, [.query_abi, .stderr (.hintUpdateKernel 4 3), .create_ruleset 32767 0,
        .add_rule_net 3 80 LANDLOCK_ACCESS_NET_BIND_TCP,
        .no_new_privs, .restrict_self 3, .close 3,
        .execvpe "/bin/true".toList ["/bin/true".toList]]) ∧
    LANDLOCK_ACCESS_NET_BIND_TCP &&& 0 ≠ LANDLOCK_ACCESS_NET_BIND_TCP ∧
    main world_net_rejects ["sandboxer".toList, "/bin/true".toList]
        (env_of (some "") (some "") (some "80") none) =
      (.exit 1, [.query_abi, .stderr (.hintUpdateKernel 4 3), .create_ruleset 32767 0,
        .add_rule_net 3 80 LANDLOCK_ACCESS_NET_BIND_TCP,
        .stderr (.failedUpdatePort 80 22), .close 3]) := by
  exact ⟨by decide, by decide, by decide⟩

/-- C7: the bind bit is in the network mask that `main` requests exactly when
`LL_TCP_BIND` is in the environment, and the connect bit exactly when
`LL_TCP_CONNECT` is (an empty value is a value); no other bit is requested; at an
ABI version that has network support (4 or more) this mask is the network mask
of the ruleset that `main` creates; and for a variable that is not in the
environment `populate_ruleset_net` returns 0 and adds nothing to the trace. -/
theorem C7_optional_network (env : Env) :
    ((access_net_tcp env &&& LANDLOCK_ACCESS_NET_BIND_TCP = LANDLOCK_ACCESS_NET_BIND_TCP) ↔
      (env ENV_TCP_BIND_NAME).isSome = true) ∧
    ((access_net_tcp env &&& LANDLOCK_ACCESS_NET_CONNECT_TCP =
        LANDLOCK_ACCESS_NET_CONNECT_TCP) ↔
      (env ENV_TCP_CONNECT_NAME).isSome = true) ∧
    access_net_tcp env &&&
      (LANDLOCK_ACCESS_NET_BIND_TCP ||| LANDLOCK_ACCESS_NET_CONNECT_TCP) = access_net_tcp env ∧
    (∀ (w : World) (argv : List CStr) (abi : Nat), 2 ≤ argv.length → w.query_abi = .ok abi →
      4 ≤ abi → ∃ fs, Event.create_ruleset fs (access_net_tcp env) ∈ (main w argv env).2) ∧
    (∀ (w : World) (env_var : String) (ruleset_fd allowed_access : Nat) (tr : List Event),
      env env_var = none →
      populate_ruleset_net w env_var ruleset_fd allowed_access { env := env, trace := tr } =
        (some 0, { env := env, trace := tr })) := by
  refine ⟨?_, ?_, ?_, ?_, ?_⟩
  · cases h1 : env ENV_TCP_BIND_NAME <;> cases h2 : env ENV_TCP_CONNECT_NAME <;>
      simp [access_net_tcp, h1, h2, LANDLOCK_ACCESS_NET_BIND_TCP,
        LANDLOCK_ACCESS_NET_CONNECT_TCP]
  · cases h1 : env ENV_TCP_BIND_NAME <;> cases h2 : env ENV_TCP_CONNECT_NAME <;>
      simp [access_net_tcp, h1, h2, LANDLOCK_ACCESS_NET_BIND_TCP,
        LANDLOCK_ACCESS_NET_CONNECT_TCP]
    all_goals decide
  · cases h1 : env ENV_TCP_BIND_NAME <;> cases h2 : env ENV_TCP_CONNECT_NAME <;>
      simp [access_net_tcp, h1, h2, LANDLOCK_ACCESS_NET_BIND_TCP,
        LANDLOCK_ACCESS_NET_CONNECT_TCP]
    all_goals decide
  · intro w argv abi h2 hq h4
    have hmem := main_create_mem w argv env h2 abi hq
    have hnet : (effective_attr env abi).handled_access_net = access_net_tcp env := by
      simp [effective_attr, best_effort_ge abi _ h4]
    rw [hnet] at hmem
    exact ⟨_, hmem⟩
  · intro w var rfd a tr h
    simp [populate_ruleset_net, h]

/-- C7 at an environment with an empty `LL_TCP_BIND` and no `LL_TCP_CONNECT`:
only the bind right is requested, and the call for `LL_TCP_CONNECT` adds
nothing. -/
theorem C7_optional_network_witness :
    access_net_tcp (env_of (some "") (some "") (some "") none) = LANDLOCK_ACCESS_NET_BIND_TCP ∧
    (populate_ruleset_net (world_ok 4) ENV_TCP_CONNECT_NAME 3 LANDLOCK_ACCESS_NET_CONNECT_TCP
      { env := env_of (some "") (some "") (some "") none, trace := [.query_abi] }).1 = some 0 ∧
    (populate_ruleset_net (world_ok 4) ENV_TCP_CONNECT_NAME 3 LANDLOCK_ACCESS_NET_CONNECT_TCP
      { env := env_of (some "") (some "") (some "") none, trace := [.query_abi] }).2.trace =
      [.query_abi] := by
  have h := (C7_optional_network (env_of (some "") (some "") (some "") none)).2.2.2.2
    (world_ok 4) ENV_TCP_CONNECT_NAME 3 LANDLOCK_ACCESS_NET_CONNECT_TCP [.query_abi]
    (by decide)
  rw [h]
  exact ⟨by decide, rfl, rfl⟩

/-- C8: `parse_path` returns the maximal colon-free segments of its argument in
their order: their number is one more than the number of colons, none contains a
colon, joining them with colons gives the argument back, and they are the only
list with these properties.  So `/a:/b:/c` gives `/a`, `/b`, `/c`, and the empty
string gives one empty entry, for which `populate_ruleset_fs` returns success
without any call and without any message. -/
theorem C8_parse_path (s : CStr) :
    parse_path (some s) =
      (1 + s.count ENV_PATH_TOKEN, (s.splitOn ENV_PATH_TOKEN).map some) ∧
    (s.splitOn ENV_PATH_TOKEN).length = 1 + s.count ENV_PATH_TOKEN ∧
    (∀ t ∈ s.splitOn ENV_PATH_TOKEN, ENV_PATH_TOKEN ∉ t) ∧
    [ENV_PATH_TOKEN].intercalate (s.splitOn ENV_PATH_TOKEN) = s ∧
    (∀ segs : List CStr, segs ≠ [] → (∀ t ∈ segs, ENV_PATH_TOKEN ∉ t) →
      [ENV_PATH_TOKEN].intercalate segs = s → segs = s.splitOn ENV_PATH_TOKEN) ∧
    parse_path (some "/a:/b:/c".toList) =
      (3, [some "/a".toList, some "/b".toList, some "/c".toList]) ∧
    parse_path (some "".toList) = (1, [some []]) ∧
    (∀ (w : World) (env_var : String) (ruleset_fd allowed_access : Nat) (st : State),
      st.env env_var = some [] →
      populate_ruleset_fs w env_var ruleset_fd allowed_access st =
        (some 0, { env := unsetenv env_var st.env, trace := st.trace })) := by
  refine ⟨parse_path_some s, splitOn_length s, splitOn_colon_free s,
    List.intercalate_splitOn s ENV_PATH_TOKEN, ?_, by decide, by decide, ?_⟩
  · intro segs hne hfree hjoin
    rw [← hjoin]
    exact (List.splitOn_intercalate segs ENV_PATH_TOKEN hfree hne).symm
  · intro w var rfd a st h
    simp [populate_ruleset_fs, h, parse_path, count_tokens, strsep_loop, strsep,
      List.span_eq_take_drop]

/-- C8 at the string `/usr:/lib` and at a state in which `LL_FS_RW` is empty. -/
theorem C8_parse_path_witness :
    parse_path (some "/usr:/lib".toList) = (2, [some "/usr".toList, some "/lib".toList]) ∧
    populate_ruleset_fs ⟨.ok 4, fun _ _ _ => .ok 3, fun _ _ => .ok 5, fun _ _ => .ok true,
        fun _ _ _ _ => .ok (), fun _ _ _ _ => .ok (), fun _ => .ok (), fun _ _ => .ok (),
        fun _ _ _ => none⟩ ENV_FS_RW_NAME 3 7
        { env := fun v => if v = ENV_FS_RW_NAME then some [] else none, trace := [.query_abi] } =
      (some 0, State.mk (unsetenv ENV_FS_RW_NAME
          (fun v => if v = ENV_FS_RW_NAME then some [] else none)) [.query_abi]) := by
  refine ⟨?_, ?_⟩
  · have h := (C8_parse_path "/usr:/lib".toList).1
    rw [h]
    decide
  · exact (C8_parse_path []).2.2.2.2.2.2.2 _ ENV_FS_RW_NAME 3 7 _ (by simp)

/-- C9 does not hold for a token that `atoi` reads as a negative integer: with
`LL_TCP_BIND=-1` and every registration successful, `populate_ruleset_net`
returns 0 after one call of `landlock_add_rule` whose port is
18446744073709551615, while the integer read from the token is -1. -/
theorem C9_negative_token :
    (populate_ruleset_net (world_ok 4) ENV_TCP_BIND_NAME 3 LANDLOCK_ACCESS_NET_BIND_TCP
      { env := env_of (some "") (some "") (some "-1") none, trace := [] }).1 = some 0 ∧
    (populate_ruleset_net (world_ok 4) ENV_TCP_BIND_NAME 3 LANDLOCK_ACCESS_NET_BIND_TCP
      { env := env_of (some "") (some "") (some "-1") none, trace := [] }).2.trace =
      [.add_rule_net 3 18446744073709551615 LANDLOCK_ACCESS_NET_BIND_TCP] ∧
    atoi "-1".toList = -1 ∧
    ((18446744073709551615 : Nat) : Int) ≠ atoi "-1".toList := by
  exact ⟨by decide, by decide, by decide, by decide⟩

/-- C9 with the port as the unsigned 64-bit field holds it: for a port variable
whose value is not the empty string, when every registration succeeds
`populate_ruleset_net` returns 0 after exactly one call of `landlock_add_rule`
for each token between the colons, in their order, each with the access mask it
was given and with the port that `atoi` reads from the token, converted to the
`port` field: the integer itself when it is not negative, and the integer plus
`2 ^ 64` when it is negative.  A token of decimal digits whose value is below
`2 ^ 31` gives this value, so `80:443` gives the ports 80 and 443; a token
without a number, as `abc` or the empty token of `80:`, gives port 0; the token
`-1` gives port 18446744073709551615. -/
theorem C9_port_rules (w : World) (env_var : String) (ruleset_fd allowed_access : Nat)
    (st : State) (s : CStr) (henv : st.env env_var = some s) (hs : s ≠ [])
    (hok : ∀ tr fd port m, w.add_rule_net tr fd port m = .ok ()) :
    populate_ruleset_net w env_var ruleset_fd allowed_access st =
      (some 0, { env := unsetenv env_var st.env,
                 trace := st.trace ++ (s.splitOn ENV_PATH_TOKEN).map (fun tok =>
                   Event.add_rule_net ruleset_fd (u64_of_int (atoi tok)) allowed_access) }) ∧
    (∀ tok : CStr, (u64_of_int (atoi tok) : Int) =
      if 0 ≤ atoi tok then atoi tok else atoi tok + 2 ^ 64) ∧
    (∀ ds : List Nat, (∀ d ∈ ds, d < 10) → Nat.ofDigits 10 ds.reverse < 2 ^ 31 →
      u64_of_int (atoi (ds.map (fun d => Char.ofNat (48 + d)))) =
        Nat.ofDigits 10 ds.reverse) ∧
    (∀ tok : CStr, (tok = [] ∨ ∃ c rest, tok = c :: rest ∧ c.isDigit = false ∧
      isspace c = false ∧ c ≠ '+' ∧ c ≠ '-') → u64_of_int (atoi tok) = 0) ∧
    ("80:443".toList.splitOn ENV_PATH_TOKEN).map (fun tok => u64_of_int (atoi tok)) = [80, 443] ∧
    ("80:".toList.splitOn ENV_PATH_TOKEN).map (fun tok => u64_of_int (atoi tok)) = [80, 0] ∧
    ("abc".toList.splitOn ENV_PATH_TOKEN).map (fun tok => u64_of_int (atoi tok)) = [0] ∧
    ("-1".toList.splitOn ENV_PATH_TOKEN).map (fun tok => u64_of_int (atoi tok)) =
      [18446744073709551615] := by
  refine ⟨?_, u64_of_int_atoi, ?_, ?_, by decide, by decide, by decide, by decide⟩
  · obtain ⟨ret, evs, env, hp, _, henv', hr⟩ :=
      populate_ruleset_net_run w env_var ruleset_fd allowed_access st
    simp only [net_steps, henv, entries, hs, if_false] at hr
    obtain ⟨hret, hevs⟩ := runs_ports_ok hok _ _ _ _ hr
    rw [hp, hret, hevs, henv' s henv]
    rfl
  · intro ds hd hv
    rw [atoi_of_digits ds hd hv]
    generalize Nat.ofDigits 10 ds.reverse = v at hv
    simp only [u64_of_int]
    omega
  · intro tok h
    rw [atoi_of_no_number tok h]
    rfl

/-- C9 at `LL_TCP_CONNECT=80:443`. -/
theorem C9_port_rules_witness :
    (populate_ruleset_net (world_ok 4) ENV_TCP_CONNECT_NAME 3 LANDLOCK_ACCESS_NET_CONNECT_TCP
      { env := env_of (some "") (some "") none (some "80:443"), trace := [] }).1 = some 0 ∧
    (populate_ruleset_net (world_ok 4) ENV_TCP_CONNECT_NAME 3 LANDLOCK_ACCESS_NET_CONNECT_TCP
      { env := env_of (some "") (some "") none (some "80:443"), trace := [] }).2.trace =
      [.add_rule_net 3 80 2, .add_rule_net 3 443 2] := by
  have h := (C9_port_rules (world_ok 4) ENV_TCP_CONNECT_NAME 3 LANDLOCK_ACCESS_NET_CONNECT_TCP
    { env := env_of (some "") (some "") none (some "80:443"), trace := [] } "80:443".toList
    (by decide) (by decide) (fun _ _ _ _ => rfl)).1
  rw [h]
  exact ⟨rfl, by decide⟩

/-- C10 does not hold when `fstat` fails: for `LL_FS_RO=/x:/y`,
`populate_ruleset_fs` returns 1 after `open`, `fstat` and `close` of `/x`, and
writes nothing to standard error; when `open` or the registration fails
instead, it writes the message that names `/x` and the error. -/
theorem C10_fstat_failure_is_silent :
    ((populate_ruleset_fs world_fstat_fails ENV_FS_RO_NAME 3 13
        { env := env_of (some "/x:/y") (some "") none none, trace := [] }).1 = some 1 ∧
      (populate_ruleset_fs world_fstat_fails ENV_FS_RO_NAME 3 13
        { env := env_of (some "/x:/y") (some "") none none, trace := [] }).2.trace =
        [.open_path "/x".toList, .fstat 4, .close 4]) ∧
    (populate_ruleset_fs world_open_fails ENV_FS_RO_NAME 3 13
        { env := env_of (some "/x:/y") (some "") none none, trace := [] }).2.trace =
      [.open_path "/x".toList, .stderr (.failedOpen "/x".toList 2)] ∧
    (populate_ruleset_fs world_rule_fails ENV_FS_RO_NAME 3 13
        { env := env_of (some "/b:/y") (some "") none none, trace := [] }).2.trace =
      [.open_path "/b".toList, .fstat 4, .add_rule_path 3 4 13,
        .stderr (.failedUpdatePath "/b".toList 22), .close 4] := by
  exact ⟨⟨by decide, by decide⟩, by decide, by decide⟩

end Sandboxer
